import Mathlib

set_option maxRecDepth 8000
set_option maxHeartbeats 1000000

/- Verification of the reddit-save archiver.  The development is a shallow
   embedding of `reddit_archiver.py` (together with the duplicated logic in
   `utilities.py`) over `List Char` strings.  Response bodies and file
   contents are modelled as character lists; the Python regular expressions
   used by the source are modelled by explicit scanners implementing the
   exact non-greedy / greedy semantics of the patterns that appear in the
   code.  Unicode-sensitive character classes are modelled over ASCII. -/

/-- Literal `http` of the gfycat video pattern. -/
def sHttp : List Char := "http".data

/-- Literal `.mp4` of the gfycat video pattern. -/
def sDotMp4 : List Char := ".mp4".data

/-- Python `str.split(sep)` for a one-character separator: always returns a
non-empty list, keeps empty pieces. -/
def splitOnChar (sep : Char) : List Char → List (List Char)
  | [] => [[]]
  | c :: rest =>
    let r := splitOnChar sep rest
    if c = sep then [] :: r
    else
      match r with
      | [] => [[c]]
      | x :: xs => (c :: x) :: xs

/-- Python `l[-n:]`: the last `n` elements (the whole list when it is
shorter). -/
def lastN (n : Nat) (l : List (List Char)) : List (List Char) :=
  l.drop (l.length - n)

/-- Fuel-driven worker for `replaceAll`; the fuel is the length of the
scanned list, so it never runs out in `replaceAll`. -/
def replaceGo (pat rep : List Char) : Nat → List Char → List Char
  | _, [] => []
  | 0, l => l
  | fuel + 1, c :: rest =>
    if pat <+: (c :: rest) then rep ++ replaceGo pat rep fuel ((c :: rest).drop pat.length)
    else c :: replaceGo pat rep fuel rest

/-- Python `str.replace(pat, rep)`: replace every non-overlapping occurrence
of `pat`, scanning left to right and not rescanning the replacement. -/
def replaceAll (pat rep l : List Char) : List Char :=
  if pat = [] then l else replaceGo pat rep l.length l

/-- Worker for the non-greedy middle part `cls+?` followed by the literal
`E` of a Python regex: consume characters of the class one at a time and
stop at the first position where `E` matches (shortest-match semantics).
Returns the consumed middle and the remainder after `E`. -/
def takeBody (cls : Char → Bool) (E : List Char) : List Char → Option (List Char × List Char)
  | [] => none
  | c :: rest =>
    if cls c then
      if E <+: rest then some ([c], rest.drop E.length)
      else
        match takeBody cls E rest with
        | some (body, rem) => some (c :: body, rem)
        | none => none
    else none

/-- Fuel-driven worker for `reFindAll`. -/
def reFindAllGo (S : List Char) (cls : Char → Bool) (E : List Char) :
    Nat → List Char → List (List Char)
  | _, [] => []
  | 0, _ => []
  | fuel + 1, c :: rest =>
    if S <+: (c :: rest) then
      match takeBody cls E ((c :: rest).drop S.length) with
      | some (body, rem) => body :: reFindAllGo S cls E fuel rem
      | none => reFindAllGo S cls E fuel rest
    else reFindAllGo S cls E fuel rest

/-- Python `re.findall` for a pattern of the shape `S (cls+?) E` (literal
`S`, non-greedy character class, literal `E`): scan left to right, resume
after each match, and return the captured middles. -/
def reFindAll (S : List Char) (cls : Char → Bool) (E : List Char) (l : List Char) :
    List (List Char) :=
  reFindAllGo S cls E l.length l

/-- Character class of `.` in the pattern `id="(.+?)"` (no DOTALL): any
character except a newline. -/
def dotCls (c : Char) : Bool := c ≠ '\n'

/-- Character class `[\S\n\t\v ]` of the fragment pattern, over ASCII:
everything except carriage return and form feed. -/
def fragCls (c : Char) : Bool := c ≠ '\r' ∧ c ≠ '\x0c'

/-- Character class `[\dA-Za-z\+\:\/\.]` of the gfycat `.mp4` pattern
(ASCII digits and letters). -/
def gfyCls (c : Char) : Bool :=
  ('0' ≤ c ∧ c ≤ '9') ∨ ('A' ≤ c ∧ c ≤ 'Z') ∨ ('a' ≤ c ∧ c ≤ 'z') ∨
    c = '+' ∨ c = ':' ∨ c = '/' ∨ c = '.'

/-- Greedy backoff for `http([\dA-Za-z\+\:\/\.]+)\.mp4`: try the longest
prefix of the class run first, backing off until the literal `.mp4`
matches right after it. -/
def findMp4K (l : List Char) : Nat → Option Nat
  | 0 => none
  | k + 1 => if sDotMp4 <+: l.drop (k + 1) then some (k + 1) else findMp4K l k

/-- Attempt of the gfycat pattern at one position, `l` being the text just
after a literal `http`. -/
def mp4At (l : List Char) : Option (List Char) :=
  let run := l.takeWhile gfyCls
  match findMp4K l run.length with
  | some k => some (sHttp ++ l.take k ++ sDotMp4)
  | none => none

/-- Python `re.search(r"http([\dA-Za-z\+\:\/\.]+)\.mp4", text).group()`:
the leftmost-then-greedy full match, if any. -/
def mp4Search : List Char → Option (List Char)
  | [] => none
  | c :: rest =>
    if sHttp <+: (c :: rest) then
      match mp4At ((c :: rest).drop 4) with
      | some m => some m
      | none => mp4Search rest
    else mp4Search rest

/-- First index at which `pat` occurs in `l`, Python `str.find` but with
`Option` instead of `-1`. -/
def findSub (pat : List Char) : List Char → Option Nat
  | [] => if pat = [] then some 0 else none
  | c :: rest =>
    if pat <+: (c :: rest) then some 0
    else (findSub pat rest).map (· + 1)

/-- Decimal digits of a natural number, most significant first. -/
def natStr (n : Nat) : List Char := Nat.toDigits 10 n

/-- Two-digit zero-padded decimal rendering. -/
def pad2 (n : Nat) : List Char := if n < 10 then '0' :: natStr n else natStr n

/-- Python `str` of an integer. -/
def intStr : Int → List Char
  | .ofNat n => natStr n
  | .negSucc n => '-' :: natStr (n + 1)

/-- Civil calendar date `(year, month, day)` of a day count since
1970-01-01 (the standard era-based conversion used for proleptic
Gregorian dates). -/
def civilFromDays (z : Nat) : Nat × Nat × Nat :=
  let w := z + 719468
  let era := w / 146097
  let doe := w % 146097
  let yoe := (doe - doe / 1460 + doe / 36524 - doe / 146097) / 365
  let y := yoe + era * 400
  let doy := doe - (365 * yoe + yoe / 4 - yoe / 100)
  let mp := (5 * doy + 2) / 153
  let d := doy - (153 * mp + 2) / 5 + 1
  let m := if mp < 10 then mp + 3 else mp - 9
  (if m ≤ 2 then y + 1 else y, m, d)

/-- English month names, for `strftime` with `%B`. -/
def monthName (m : Nat) : List Char :=
  (["January".data, "February".data, "March".data, "April".data, "May".data,
    "June".data, "July".data, "August".data, "September".data, "October".data,
    "November".data, "December".data]).getD (m - 1) []

/-- Separator constants used by the date renderings. -/
def sDash : List Char := "-".data

/-- Space constant. -/
def sSpace : List Char := " ".data

/-- Colon constant. -/
def sColon : List Char := ":".data

/-- Comma-space constant. -/
def sCommaSpace : List Char := ", ".data

/-- Space-dash-space constant. -/
def sSpDashSp : List Char := " - ".data

/-- Python `str(datetime.utcfromtimestamp(t))` for a whole-second epoch
timestamp: `YYYY-MM-DD HH:MM:SS`. -/
def datetimeStr (t : Nat) : List Char :=
  let ymd := civilFromDays (t / 86400)
  let secs := t % 86400
  natStr ymd.1 ++ sDash ++ pad2 ymd.2.1 ++ sDash ++ pad2 ymd.2.2 ++ sSpace ++
    pad2 (secs / 3600) ++ sColon ++ pad2 (secs % 3600 / 60) ++ sColon ++ pad2 (secs % 60)

/-- Python `dt.strftime("%d %B, %Y")`. -/
def dateFmtPost (t : Nat) : List Char :=
  let ymd := civilFromDays (t / 86400)
  pad2 ymd.2.2 ++ sSpace ++ monthName ymd.2.1 ++ sCommaSpace ++ natStr ymd.1

/-- Python `dt.strftime("%H:%M - %d %B, %Y")`. -/
def dateFmtComment (t : Nat) : List Char :=
  let secs := t % 86400
  pad2 (secs / 3600) ++ sColon ++ pad2 (secs % 3600 / 60) ++ sSpDashSp ++ dateFmtPost t

/-- Reddit submission as the archiver reads it: the PRAW fields that
`reddit_archiver.py` accesses. -/
structure Post where
  id : List Char
  title : List Char
  subreddit : List Char
  author : Option (List Char)
  url : List Char
  permalink : List Char
  selftextHtml : Option (List Char)
  created_utc : Nat

/-- Reddit comment with its (one-level-rendered, arbitrarily nested) reply
tree. -/
inductive Comment : Type where
  | mk (cid : List Char) (author : Option (List Char)) (bodyHtml : Option (List Char))
      (score : Int) (permalink : List Char) (created_utc : Nat)
      (replies : List Comment)

/-- Identifier of a comment. -/
def Comment.cid : Comment → List Char
  | .mk i _ _ _ _ _ _ => i

/-- Author of a comment, `none` for deleted. -/
def Comment.author : Comment → Option (List Char)
  | .mk _ a _ _ _ _ _ => a

/-- Pre-rendered body of a comment. -/
def Comment.bodyHtml : Comment → Option (List Char)
  | .mk _ _ b _ _ _ _ => b

/-- Score of a comment. -/
def Comment.score : Comment → Int
  | .mk _ _ _ s _ _ _ => s

/-- Permalink of a comment. -/
def Comment.permalink : Comment → List Char
  | .mk _ _ _ _ p _ _ => p

/-- Creation timestamp of a comment. -/
def Comment.created_utc : Comment → Nat
  | .mk _ _ _ _ _ t _ => t

/-- Replies of a comment. -/
def Comment.replies : Comment → List Comment
  | .mk _ _ _ _ _ _ r => r

/-- Item of a saved/upvoted listing, discriminated the way the source
discriminates on `__class__.__name__ == "Submission"`. -/
inductive Item : Type where
  | post (p : Post)
  | comment (c : Comment)

/-- PRAW client surface used by the archiver: the two listings it reads. -/
structure Client where
  saved : List Item
  upvoted : List Item

/-- Submissions of a mixed listing. -/
def submissionsOf (items : List Item) : List Post :=
  items.filterMap (fun i => match i with | .post p => some p | .comment _ => none)

/-- Non-submissions of a mixed listing. -/
def nonSubmissionsOf (items : List Item) : List Comment :=
  items.filterMap (fun i => match i with | .comment c => some c | .post _ => none)

/-- Mode string `saved`. -/
def sSaved : List Char := "saved".data

/-- Embeds `RedditArchiver.get_posts`: saved or upvoted submissions. -/
def get_posts (cl : Client) (mode : List Char) : List Post :=
  submissionsOf (if mode = sSaved then cl.saved else cl.upvoted)

/-- Embeds `RedditArchiver.get_comments`: saved comments, and the empty
list in any mode other than `saved`. -/
def get_comments (cl : Client) (mode : List Char) : List Comment :=
  if mode ≠ sSaved then [] else nonSubmissionsOf cl.saved

/-- Modelled from the spec: the `post-div.html` template, which is not part
of the two source files.  Per the spec it is a fixed HTML resource carrying
the placeholder markers substituted by `get_post_html`; per the extraction
regex of `_get_existing_items` a rendered post fragment opens with
`<div class="post"`, carries an `id="..."` attribute and closes with the
`<!--postend--></div>` marker. -/
def postDivTemplate : List Char :=
  ("<div class=\"post\" id=\"<!--id-->\">\n" ++
   "<h2><a href=\"<!--link-->\"><!--title--></a></h2>\n" ++
   "<p><!--subreddit--> <!--user--> <!--date--></p>\n" ++
   "<!--preview-->\n<!--body-->\n" ++
   "<a href=\"<!--reddit-link-->\">reddit</a> <a href=\"<!--content-link-->\">content</a>\n" ++
   "<span><!--timestamp--></span>\n<!--postend--></div>").data

/-- Modelled from the spec: the `comment-div.html` template (not in the two
source files), carrying the comment placeholders and the
`<div class="comment"` ... `<!--commentend--></div>` envelope matched by the
extraction regex. -/
def commentDivTemplate : List Char :=
  ("<div class=\"comment\" id=\"<!--id-->\">\n" ++
   "<p><!--user--> <!--score--> <a href=\"<!--link-->\"><!--date--></a></p>\n" ++
   "<!--body-->\n" ++
   "<div class=\"children\"><!--children--></div>\n" ++
   "<span><!--timestamp--></span>\n<!--commentend--></div>").data

/-- Modelled from the spec: the per-mode index template (`saved.html` /
`upvoted.html`, not in the two source files), with the `<style></style>`,
`<script></script>`, `<!--posts-->` and `<!--comments-->` markers the
archiver substitutes. -/
def indexTemplate : List Char :=
  ("<html><head><style></style><script></script></head>\n<body>\n" ++
   "<!--posts-->\n<hr>\n<!--comments-->\n</body></html>").data

/-- Modelled from the spec: the `style.css` resource (content opaque to the
core; any fixed text without markers). -/
def styleCss : List Char := "body color black".data

/-- Modelled from the spec: the `main.js` resource (content opaque to the
core; any fixed text without markers). -/
def mainJs : List Char := "window.onload = main".data

/-- Marker `<!--title-->`. -/
def mTitle : List Char := "<!--title-->".data

/-- Marker `<!--subreddit-->`. -/
def mSubreddit : List Char := "<!--subreddit-->".data

/-- Marker `<!--user-->`. -/
def mUser : List Char := "<!--user-->".data

/-- Marker `<!--link-->`. -/
def mLink : List Char := "<!--link-->".data

/-- Marker `<!--reddit-link-->`. -/
def mRedditLink : List Char := "<!--reddit-link-->".data

/-- Marker `<!--content-link-->`. -/
def mContentLink : List Char := "<!--content-link-->".data

/-- Marker `<!--id-->`. -/
def mId : List Char := "<!--id-->".data

/-- Marker `<!--body-->`. -/
def mBody : List Char := "<!--body-->".data

/-- Marker `<!--timestamp-->`. -/
def mTimestamp : List Char := "<!--timestamp-->".data

/-- Marker `<!--date-->`. -/
def mDate : List Char := "<!--date-->".data

/-- Marker `<!--score-->`. -/
def mScore : List Char := "<!--score-->".data

/-- Marker `<!--children-->`. -/
def mChildren : List Char := "<!--children-->".data

/-- Marker `<!--preview-->`. -/
def mPreview : List Char := "<!--preview-->".data

/-- Marker `<!--posts-->`. -/
def mPosts : List Char := "<!--posts-->".data

/-- Marker `<!--comments-->`. -/
def mComments : List Char := "<!--comments-->".data

/-- Marker `<style></style>`. -/
def mStyle : List Char := "<style></style>".data

/-- Marker `<script></script>`. -/
def mScript : List Char := "<script></script>".data

/-- Prefix `/r/`. -/
def sSlashR : List Char := "/r/".data

/-- Prefix `/u/`. -/
def sSlashU : List Char := "/u/".data

/-- Placeholder `[deleted]` for an absent author. -/
def sDeleted : List Char := "[deleted]".data

/-- Prefix `posts/` of a standalone page link. -/
def sPostsSlash : List Char := "posts/".data

/-- Suffix `.html`. -/
def sDotHtml : List Char := ".html".data

/-- Prefix `https://reddit.com`. -/
def sRedditCom : List Char := "https://reddit.com".data

/-- Link text replaced inside bodies: `<a href="/r/`. -/
def sBodyLinkOld : List Char := "<a href=\"/r/".data

/-- Its replacement: `<a href="https://reddit.com/r/`. -/
def sBodyLinkNew : List Char := "<a href=\"https://reddit.com/r/".data

/-- Opening `<style>` with newline. -/
def sStyleOpen : List Char := "<style>\n".data

/-- Closing `</style>` with newline. -/
def sStyleClose : List Char := "\n</style>".data

/-- Opening `<script>` with newline. -/
def sScriptOpen : List Char := "<script>\n".data

/-- Closing `</script>` with newline. -/
def sScriptClose : List Char := "\n</script>".data

/-- Underscore constant. -/
def sUnd : List Char := "_".data

/-- Dot constant. -/
def sDot : List Char := ".".data

/-- Span opening of an op author: `<span class="op">/u/`. -/
def sOpSpanOpen : List Char := "<span class=\"op\">/u/".data

/-- Span closing `</span>`. -/
def sSpanClose : List Char := "</span>".data

/-- Newline singleton, the joiner of `"\n".join(...)`. -/
def nlL : List Char := "\n".data

/-- Python `"\n".join`. -/
def joinNl : List (List Char) → List Char
  | [] => []
  | [x] => x
  | x :: y :: rest => x ++ '\n' :: joinNl (y :: rest)

/-- Embeds `RedditArchiver.get_post_html`: substitute the post's data into
the post-div template, in the insertion order of the replacement dict. -/
def get_post_html (p : Post) : List Char :=
  let html := postDivTemplate
  let html := replaceAll mTitle p.title html
  let html := replaceAll mSubreddit (sSlashR ++ p.subreddit) html
  let html := replaceAll mUser
    (match p.author with | some a => sSlashU ++ a | none => sDeleted) html
  let html := replaceAll mLink (sPostsSlash ++ p.id ++ sDotHtml) html
  let html := replaceAll mRedditLink (sRedditCom ++ p.permalink) html
  let html := replaceAll mContentLink p.url html
  let html := replaceAll mId p.id html
  let html := replaceAll mBody (replaceAll sBodyLinkOld sBodyLinkNew (p.selftextHtml.getD [])) html
  let html := replaceAll mTimestamp (datetimeStr p.created_utc) html
  replaceAll mDate (dateFmtPost p.created_utc) html

/-- Known image extensions (`IMAGE_EXTENSIONS`), in source order. -/
def IMAGE_EXTENSIONS : List (List Char) :=
  ["jpg".data, "jpeg".data, "png".data, "bmp".data, "gif".data, "webp".data,
   "tiff".data, "gifv".data]

/-- Known video extensions (`VIDEO_EXTENSIONS`). -/
def VIDEO_EXTENSIONS : List (List Char) :=
  ["mp4".data, "mkv".data, "webm".data, "flv".data, "avi".data, "mov".data]

/-- Platforms handled by the generic extractor (`PLATFORMS`). -/
def PLATFORMS : List (List Char) :=
  ["youtube.com".data, "vimeo.com".data, "dailymotion.com".data,
   "redgifs.com".data, "gfycat.com".data, "imgur.com".data]

/-- Prefix `media/` of an embedded preview path. -/
def sMediaSlash : List Char := "media/".data

/-- Image preview markup pieces. -/
def sImgOpen : List Char := "<img src=\"".data

/-- Closing of the image preview. -/
def sImgClose : List Char := "\">".data

/-- Video preview opening markup. -/
def sVideoOpen : List Char := "<video controls><source src=\"".data

/-- Video preview closing markup. -/
def sVideoClose : List Char := "\"></video>".data

/-- Embeds `RedditArchiver.add_media_preview_to_html`: embed an image or
video tag for the downloaded media file, keyed on its extension. -/
def add_media_preview_to_html (post_html media : List Char) : List Char :=
  let extension := (splitOnChar '.' media).getLastD []
  let location := sMediaSlash ++ media
  if extension ∈ IMAGE_EXTENSIONS then
    replaceAll mPreview (sImgOpen ++ location ++ sImgClose) post_html
  else if extension ∈ VIDEO_EXTENSIONS then
    replaceAll mPreview (sVideoOpen ++ location ++ sVideoClose) post_html
  else post_html

/-- Substitution chain of `RedditArchiver.get_comment_html` before the
children step (the rendering used for replies, which are rendered with
`children=False`). -/
def get_comment_html_base (c : Comment) (op : Option (List Char)) : List Char :=
  let author := match c.author with
    | none => sDeleted
    | some name => if some name = op then sOpSpanOpen ++ name ++ sSpanClose
                   else sSlashU ++ name
  let html := commentDivTemplate
  let html := replaceAll mUser author html
  let html := replaceAll mBody (replaceAll sBodyLinkOld sBodyLinkNew (c.bodyHtml.getD [])) html
  let html := replaceAll mScore (intStr c.score) html
  let html := replaceAll mLink (sRedditCom ++ c.permalink) html
  let html := replaceAll mTimestamp (datetimeStr c.created_utc) html
  let html := replaceAll mId c.cid html
  replaceAll mDate (dateFmtComment c.created_utc) html

/-- Embeds `RedditArchiver.get_comment_html`: when `children` is true the
`<!--children-->` marker is replaced by the joined renderings of the
direct replies (each rendered with `children=False`, which is exactly the
base chain); when false the marker is left in place. -/
def get_comment_html (c : Comment) (children : Bool) (op : Option (List Char)) : List Char :=
  let html := get_comment_html_base c op
  if children then
    replaceAll mChildren (joinNl (c.replies.map (fun r => get_comment_html_base r op))) html
  else html

/-- Word character of the pattern `[^\w\s-]`, over ASCII. -/
def wordChar (c : Char) : Bool := c.isAlphanum ∨ c = '_'

/-- Whitespace character of `\s`, over ASCII. -/
def spaceChar (c : Char) : Bool :=
  c = ' ' ∨ c = '\t' ∨ c = '\n' ∨ c = '\r' ∨ c = '\x0b' ∨ c = '\x0c'

/-- Embeds `re.sub(r'[-_]+', '_', s)`: each maximal run of hyphens and
underscores becomes a single underscore.  The flag records whether the
previous character belonged to a run. -/
def collapseRuns : List Char → Bool → List Char
  | [], _ => []
  | c :: rest, inRun =>
    if c = '-' ∨ c = '_' then
      (if inRun then [] else ['_']) ++ collapseRuns rest true
    else c :: collapseRuns rest false

/-- Python `str.strip(chars)`. -/
def stripChars (set l : List Char) : List Char :=
  ((l.dropWhile (fun c => set.contains c)).reverse.dropWhile
    (fun c => set.contains c)).reverse

/-- Python `str.rstrip(chars)`. -/
def rstripChars (set l : List Char) : List Char :=
  (l.reverse.dropWhile (fun c => set.contains c)).reverse

/-- Strip set `'_-.'` of the sanitizer. -/
def stripSet : List Char := "_-.".data

/-- Rstrip set `'. '` of the sanitizer. -/
def rstripSet : List Char := ". ".data

/-- Fallback name `untitled`. -/
def sUntitled : List Char := "untitled".data

/-- Prefix `post_` applied to reserved device names. -/
def sPostUnd : List Char := "post_".data

/-- Reserved Windows device names checked by the sanitizer. -/
def RESERVED : List (List Char) :=
  ["CON".data, "PRN".data, "AUX".data, "NUL".data, "COM1".data, "COM2".data,
   "COM3".data, "COM4".data, "COM5".data, "COM6".data, "COM7".data, "COM8".data,
   "COM9".data, "LPT1".data, "LPT2".data, "LPT3".data, "LPT4".data, "LPT5".data,
   "LPT6".data, "LPT7".data, "LPT8".data, "LPT9".data]

/-- Transform chain of `RedditArchiver._sanitize_filename` up to (not
including) the reserved-name check. -/
def sanitize_pre (subreddit title : List Char) : List Char :=
  let filename := subreddit ++ sUnd ++ title
  let filename := filename.filter (fun c => wordChar c ∨ spaceChar c ∨ c = '-')
  let filename := replaceAll sSpace sUnd filename
  let filename := collapseRuns filename false
  let filename := stripChars stripSet filename
  let filename := if filename = [] then sUntitled else filename
  let filename := filename.take 160
  rstripChars rstripSet filename

/-- Embeds `RedditArchiver._sanitize_filename`. -/
def sanitize_filename (subreddit title : List Char) : List Char :=
  let filename := sanitize_pre subreddit title
  if filename.map Char.toUpper ∈ RESERVED then sPostUnd ++ filename else filename

/-- Literal `id="` opening the identifier pattern. -/
def idS : List Char := "id=\"".data

/-- Literal `"` closing the identifier pattern. -/
def idE : List Char := "\"".data

/-- Item class `post`. -/
def clsPost : List Char := "post".data

/-- Item class `comment`. -/
def clsComment : List Char := "comment".data

/-- Opening literal `<div class="CLS"` of the fragment pattern. -/
def fragS (itemClass : List Char) : List Char :=
  "<div class=\"".data ++ itemClass ++ "\"".data

/-- Closing literal `<!--CLSend--></div>` of the fragment pattern. -/
def fragE (itemClass : List Char) : List Char :=
  "<!--".data ++ itemClass ++ "end--></div>".data

/-- Embeds `RedditArchiver._get_existing_items`: `none` stands for a
missing archive file; otherwise all `id="..."` captures and all complete
fragment blocks of the given class are extracted. -/
def get_existing_items (content : Option (List Char)) (itemClass : List Char) :
    List (List Char) × List (List Char) :=
  match content with
  | none => ([], [])
  | some text =>
    (reFindAll idS dotCls idE text,
     (reFindAll (fragS itemClass) fragCls (fragE itemClass) text).map
       (fun b => fragS itemClass ++ b ++ fragE itemClass))

/-- HTTP response as the downloader sees one: declared content type, body
(bytes modelled as characters) and status code. -/
structure HttpResponse where
  contentType : List Char
  content : List Char
  status : Nat

/-- File system directory modelled as an association list from file name
to contents; a write to an existing name overwrites it in place, a write
to a fresh name appends. -/
abbrev FileMap : Type := List (List Char × List Char)

/-- Write (create or overwrite) a file. -/
def fsWrite (fs : FileMap) (k v : List Char) : FileMap :=
  if fs.any (fun e => e.1 = k) then
    fs.map (fun e => if e.1 = k then (k, v) else e)
  else fs ++ [(k, v)]

/-- Content of a file, if present. -/
def fsLookup (fs : FileMap) (k : List Char) : Option (List Char) :=
  (fs.find? (fun e => e.1 = k)).map (fun e => e.2)

/-- Names present in the directory. -/
def fsNames (fs : FileMap) : List (List Char) :=
  fs.map (fun e => e.1)

/-- Network and external-downloader surface of the media pipeline.
`net url = none` models a raised `RequestException`/`Timeout`; `redvid`
models the short-video downloader (`none` = any exception), returning the
name it downloaded to and the bytes; `ydl` models `yt_dlp` acting on the
media directory (`none` = any exception). -/
structure MediaEnv where
  net : List Char → Option HttpResponse
  redvid : List Char → Option (List Char × List Char)
  ydl : List Char → FileMap → Option FileMap

/-- Content-type prefix `image`. -/
def sImage : List Char := "image".data

/-- Content-type prefix `video`. -/
def sVideo : List Char := "video".data

/-- Domain `imgur.com`. -/
def sImgurCom : List Char := "imgur.com".data

/-- Domain `redd.it`. -/
def sReddIt : List Char := "redd.it".data

/-- Domain `gfycat.com`. -/
def sGfycat : List Char := "gfycat.com".data

/-- Substring `gallery`. -/
def sGallery : List Char := "gallery".data

/-- Extension `gifv`. -/
def sGifv : List Char := "gifv".data

/-- Scheme separator `//`. -/
def sSlashSlash : List Char := "//".data

/-- Host `i.imgur.com`. -/
def sIImgur : List Char := "i.imgur.com".data

/-- Host `m.imgur.com`. -/
def sMImgur : List Char := "m.imgur.com".data

/-- Probe prefix `https://i.`. -/
def sHttpsI : List Char := "https://i.".data

/-- URL classification of `save_media` (lines computing `stripped_url`,
`extension`, `domain` and `readable_name`): `none` models the `IndexError`
raised when the URL has no third `/`-separated part or the permalink has
no non-empty segment. -/
def classifyUrl (url permalink : List Char) : Option (List Char × List Char × List Char) :=
  let stripped := (splitOnChar '?' url).headD []
  let extension := ((splitOnChar '.' stripped).getLastD []).map Char.toLower
  match (splitOnChar '/' url).get? 2 with
  | none => none
  | some host =>
    let domain := List.intercalate sDot (lastN 2 (splitOnChar '.' host))
    match ((splitOnChar '/' permalink).filter (fun part => part ≠ [])).getLast? with
    | none => none
    | some readable_name => some (extension, domain, readable_name)

/-- Embeds `RedditArchiver._download_direct_media`: fetch the URL, accept
only an `image`/`video` content type, then persist the exact bytes under
`{slug}_{post_id}.{extension}`; transport failures yield no media. -/
def download_direct_media (net : List Char → Option HttpResponse) (fs : FileMap)
    (url readable_name pid extension : List Char) : Option (List Char) × FileMap :=
  let filename := readable_name ++ sUnd ++ pid ++ sDot ++ extension
  match net url with
  | none => (none, fs)
  | some r =>
    if sImage <+: r.contentType ∨ sVideo <+: r.contentType then
      (some filename, fsWrite fs filename r.content)
    else (none, fs)

/-- Embeds `RedditArchiver._download_vreddit`: delegate to the short-video
downloader and rename its output into the media directory; any failure is
caught (after restoring the working directory) and yields no media. -/
def download_vreddit (redvid : List Char → Option (List Char × List Char)) (fs : FileMap)
    (url readable_name pid : List Char) : Option (List Char) × FileMap :=
  match redvid url with
  | none => (none, fs)
  | some (name, bytes) =>
    let extension := (splitOnChar '.' name).getLastD []
    let filename := readable_name ++ sUnd ++ pid ++ sDot ++ extension
    (some filename, fsWrite fs filename bytes)

/-- Embeds `RedditArchiver._resolve_gfycat_url`: fetch the page; only a
body smaller than 50000 bytes is scanned for the `.mp4` pattern. -/
def resolve_gfycat_url (net : List Char → Option HttpResponse) (url : List Char) :
    Option (List Char) :=
  match net url with
  | none => none
  | some r => if r.content.length < 50000 then mp4Search r.content else none

/-- Probe loop of `RedditArchiver._download_imgur` over the candidate
extensions: first HTTP 200 wins; a transport error continues with the next
candidate. -/
def imgurProbe (net : List Char → Option HttpResponse) (fs : FileMap)
    (base readable_name pid : List Char) : List (List Char) → Option (List Char) × FileMap
  | [] => (none, fs)
  | extension :: rest =>
    match net (sHttpsI ++ base ++ sDot ++ extension) with
    | none => imgurProbe net fs base readable_name pid rest
    | some r =>
      if r.status = 200 then
        let filename := readable_name ++ sUnd ++ pid ++ sDot ++ extension
        (some filename, fsWrite fs filename r.content)
      else imgurProbe net fs base readable_name pid rest

/-- Embeds `RedditArchiver._download_imgur`: normalize the host label and
probe direct-image URLs across the known image extensions. -/
def download_imgur (net : List Char → Option HttpResponse) (fs : FileMap)
    (url readable_name pid : List Char) : Option (List Char) × FileMap :=
  let base := match findSub sSlashSlash url with
    | some i => url.drop (i + 2)
    | none => url.drop 1
  let base := replaceAll sIImgur sImgurCom base
  let base := replaceAll sMImgur sImgurCom base
  imgurProbe net fs base readable_name pid IMAGE_EXTENSIONS

/-- Embeds `RedditArchiver._download_with_ytdlp`: run the generic
extractor, then return the first file of the media directory whose name
starts with `{slug}_{post_id}`; any failure yields no media. -/
def download_with_ytdlp (ydl : List Char → FileMap → Option FileMap) (fs : FileMap)
    (url readable_name pid : List Char) : Option (List Char) × FileMap :=
  match ydl url fs with
  | none => (none, fs)
  | some fs' =>
    ((fsNames fs').find? (fun n => (readable_name ++ sUnd ++ pid) <+: n), fs')

/-- Continuation of `save_media` from the imgur check onward (the code the
gfycat-resolved URL falls into): the step-5 image-host guard, then the
step-6 generic-extractor guard, then no media. -/
def route_from_imgur_check (env : MediaEnv) (fs : FileMap)
    (domain extension url readable_name pid : List Char) : Option (List Char) × FileMap :=
  if domain = sImgurCom ∧ extension ≠ sGifv then
    download_imgur env.net fs url readable_name pid
  else if domain ∈ PLATFORMS then
    download_with_ytdlp env.ydl fs url readable_name pid
  else (none, fs)

/-- Error token standing for an uncaught Python `IndexError`. -/
def eIndex : List Char := "IndexError".data

/-- Embeds `RedditArchiver.save_media`: the routing table over the URL
classification.  `.error` models an exception escaping `save_media`;
`.ok (none, fs)` is "no media". -/
def save_media (env : MediaEnv) (fs : FileMap) (p : Post) :
    Except (List Char) (Option (List Char) × FileMap) :=
  let url := p.url
  if p.permalink <:+ url then .ok (none, fs)
  else
    match classifyUrl url p.permalink with
    | none => .error eIndex
    | some (extension, domain, readable_name) =>
      if domain = sImgurCom ∧ sGallery <:+: url then .ok (none, fs)
      else if extension ∈ IMAGE_EXTENSIONS ++ VIDEO_EXTENSIONS then
        .ok (download_direct_media env.net fs url readable_name p.id extension)
      else if domain = sReddIt then
        .ok (download_vreddit env.redvid fs url readable_name p.id)
      else
        match (if domain = sGfycat then resolve_gfycat_url env.net url else some url) with
        | none => .ok (none, fs)
        | some url2 =>
          .ok (route_from_imgur_check env fs domain extension url2 readable_name p.id)

/-- Media-preview step of the loop body: embed the preview when media was
downloaded, otherwise keep the rendering unchanged. -/
def mediaApply (post_html : List Char) (media : Option (List Char)) : List Char :=
  match media with
  | some m => add_media_preview_to_html post_html m
  | none => post_html

/-- Per-item effectful steps of the archive loop, as fallible functions:
`render` models `get_post_html` (not guarded by a `try`), `saveMedia`
models `save_media`'s returned filename (also unguarded at the item
boundary), and `createPage` models `create_post_page_html` (the network-
and comment-rendering step that the source wraps in `try`/`except`). -/
structure ItemEnv where
  render : Post → Except (List Char) (List Char)
  saveMedia : Post → Except (List Char) (Option (List Char))
  createPage : Post → List Char → Except (List Char) (List Char)

/-- Standalone-page write of `archive` (lines under the `try`): write to
`{sanitized}.html` when absent, otherwise unconditionally to
`{sanitized}_{id}.html`. -/
def writePostPage (fs : FileMap) (p : Post) (page : List Char) : FileMap :=
  let postfile := sanitize_filename p.subreddit p.title
  if fsLookup fs (postfile ++ sDotHtml) ≠ none then
    fsWrite fs (postfile ++ sUnd ++ p.id ++ sDotHtml) page
  else fsWrite fs (postfile ++ sDotHtml) page

/-- Guarded standalone-page attempt of the loop body (the `try`/`except`
around `create_post_page_html` and the page write): a failure is caught
and leaves the directory untouched. -/
def pageWriteStep (env : ItemEnv) (fs : FileMap) (p : Post) (post_html : List Char) :
    FileMap :=
  match env.createPage p post_html with
  | .ok page => writePostPage fs p page
  | .error _ => fs

/-- Post loop of `archive`: render the fragment, fetch media, embed the
preview, then attempt the standalone page inside the item-level
`try`/`except` (a `createPage` failure leaves the loop running and the
directory untouched; `render` and `saveMedia` failures propagate). -/
def processPosts (env : ItemEnv) : List Post → FileMap →
    Except (List Char) (List (List Char) × FileMap)
  | [], fs => .ok ([], fs)
  | p :: rest, fs =>
    match env.render p with
    | .error e => .error e
    | .ok post_html =>
      match env.saveMedia p with
      | .error e => .error e
      | .ok media =>
        match processPosts env rest (pageWriteStep env fs p (mediaApply post_html media)) with
        | .error e => .error e
        | .ok (hs, fs'') => .ok (mediaApply post_html media :: hs, fs'')

/-- Final substitution of `archive` into the per-mode index template. -/
def buildFinal (postsHtml commentsHtml : List (List Char)) : List Char :=
  let t := indexTemplate
  let t := replaceAll mStyle (sStyleOpen ++ styleCss ++ sStyleClose) t
  let t := replaceAll mScript (sScriptOpen ++ mainJs ++ sScriptClose) t
  let t := replaceAll mPosts (joinNl postsHtml) t
  replaceAll mComments (joinNl commentsHtml) t

/-- New posts of a pass: the fetched submissions whose identifier is not
among the identifiers extracted from the existing index. -/
def newPostsOf (cl : Client) (mode : List Char) (existing : Option (List Char)) : List Post :=
  (get_posts cl mode).filter
    (fun p => !((get_existing_items existing clsPost).1.contains p.id))

/-- New comments of a pass. -/
def newCommentsOf (cl : Client) (mode : List Char) (existing : Option (List Char)) :
    List Comment :=
  (get_comments cl mode).filter
    (fun c => !((get_existing_items existing clsComment).1.contains c.cid))

/-- Comment section assembled by `archive`: newly rendered comments (with
children) followed by the previously extracted comment fragments. -/
def commentsHtmlOf (cl : Client) (mode : List Char) (existing : Option (List Char)) :
    List (List Char) :=
  (newCommentsOf cl mode existing).map (fun c => get_comment_html c true none) ++
    (get_existing_items existing clsComment).2

/-- Embeds `RedditArchiver.archive`: extract the existing identifiers and
fragments, process the unseen posts, append the old fragments behind the
new renderings of each category, and regenerate the whole index.  The
returned string is the content written to `{mode}.html`; the `FileMap` is
the `posts/` directory. -/
def archive (env : ItemEnv) (cl : Client) (mode : List Char)
    (existing : Option (List Char)) (fs : FileMap) :
    Except (List Char) (List Char × FileMap) :=
  match processPosts env (newPostsOf cl mode existing) fs with
  | .error e => .error e
  | .ok (postsHtml, fs') =>
    .ok (buildFinal (postsHtml ++ (get_existing_items existing clsPost).2)
           (commentsHtmlOf cl mode existing), fs')

/-- Middle part of a fragment between the opening literal `S` and the
closing literal `E`, when the fragment has the shape `S ++ M ++ E`. -/
def fragMiddle (S E f : List Char) : List Char :=
  (f.drop S.length).take (f.length - (S.length + E.length))

/-- No early occurrence of the closing literal: within `M ++ E` the
literal `E` does not start at any position strictly between the first
character and the end of `M`.  This is exactly what makes the non-greedy
scanner consume the whole middle. -/
def noEarlyE (E M : List Char) : Prop :=
  ∀ i < M.length, 1 ≤ i → ¬ E <+: ((M ++ E).drop i)

/-- Well-formed fragment for the scanner of pattern `S cls+? E`: it has
the shape `S ++ M ++ E` with a non-empty middle of class characters and
no early closing literal. -/
def WFfrag (S : List Char) (cls : Char → Bool) (E f : List Char) : Prop :=
  f = S ++ fragMiddle S E f ++ E ∧ fragMiddle S E f ≠ [] ∧
    (∀ c ∈ fragMiddle S E f, cls c = true) ∧ noEarlyE E (fragMiddle S E f)

/-- Well-formedness of a post fragment embedded in an index file, plus the
cross-contamination bounds the merge needs: it carries no comments marker
(which the final substitution would replace) and no comment-fragment
opener (which the comment extraction would pick up). -/
def postFragOk (f : List Char) : Prop :=
  WFfrag (fragS clsPost) fragCls (fragE clsPost) f ∧
    ¬ mComments <:+: f ∧ ¬ fragS clsComment <:+: f

/-- Well-formedness of a comment fragment embedded in an index file, plus
the bound that it carries no post-fragment opener. -/
def commentFragOk (f : List Char) : Prop :=
  WFfrag (fragS clsComment) fragCls (fragE clsComment) f ∧
    ¬ fragS clsPost <:+: f

instance instDecNoEarlyE (E M : List Char) : Decidable (noEarlyE E M) := by
  unfold noEarlyE
  infer_instance

instance instDecWFfrag (S : List Char) (cls : Char → Bool) (E f : List Char) :
    Decidable (WFfrag S cls E f) := by
  unfold WFfrag
  infer_instance

instance instDecPostFragOk (f : List Char) : Decidable (postFragOk f) := by
  unfold postFragOk
  infer_instance

instance instDecCommentFragOk (f : List Char) : Decidable (commentFragOk f) := by
  unfold commentFragOk
  infer_instance

/-- Index base: the per-mode template after the two fixed style/script
substitutions. -/
def idxBase : List Char :=
  replaceAll mScript (sScriptOpen ++ mainJs ++ sScriptClose)
    (replaceAll mStyle (sStyleOpen ++ styleCss ++ sStyleClose) indexTemplate)

/-- Concrete text of the index base before the posts marker. -/
def idxA : List Char :=
  "<html><head><style>\n".data ++ styleCss ++ "\n</style><script>\n".data ++
    mainJs ++ "\n</script></head>\n<body>\n".data

/-- Concrete text of the index base between the two section markers. -/
def idxMid : List Char := "\n<hr>\n".data

/-- Concrete text of the index base after the comments marker. -/
def idxZ : List Char := "\n</body></html>".data

/-- Fragment produced for one post by a successful pass of the loop body:
the rendering, with the media preview embedded when media was saved. -/
def stepFrag (env : ItemEnv) (p : Post) : List Char :=
  match env.render p with
  | .error _ => []
  | .ok h =>
    match env.saveMedia p with
    | .ok m => mediaApply h m
    | .error _ => h

/-- Medialess external world: every network call and every delegated
downloader fails (and is absorbed by the pipeline). -/
def mediaEnvNone : MediaEnv :=
  { net := fun _ => none, redvid := fun _ => none, ydl := fun _ _ => none }

/-- Item environment whose steps are the embedded pure renderings, with
media resolved through a given media environment and a trivially
succeeding page builder. -/
def pureItemEnv (menv : MediaEnv) : ItemEnv :=
  { render := fun p => .ok (get_post_html p)
    saveMedia := fun p => (save_media menv [] p).map (fun r => r.1)
    createPage := fun _ h => .ok h }

/-- Concrete item environment used by the concrete runs. -/
def env0 : ItemEnv := pureItemEnv mediaEnvNone

/-- Concrete post `a` of the idempotence scenario. -/
def pa : Post :=
  { id := "aa1".data, title := "Alpha".data, subreddit := "test".data
    author := some ("ann".data)
    url := "https://reddit.com/r/test/comments/aa1/alpha/".data
    permalink := "/r/test/comments/aa1/alpha/".data
    selftextHtml := some ("<p>A</p>".data), created_utc := 0 }

/-- Concrete post `b` of the idempotence scenario. -/
def pb : Post :=
  { id := "bb2".data, title := "Beta".data, subreddit := "test".data
    author := none
    url := "https://reddit.com/r/test/comments/bb2/beta/".data
    permalink := "/r/test/comments/bb2/beta/".data
    selftextHtml := none, created_utc := 86400 }

/-- Client holding the two posts of the idempotence scenario. -/
def cl1 : Client := { saved := [.post pa, .post pb], upvoted := [] }

/-- Index produced by the first concrete run over `cl1`. -/
def c1content : List Char :=
  match archive env0 cl1 sSaved none [] with
  | .ok (c, _) => c
  | .error _ => []

/-- Directory produced by the first concrete run over `cl1`. -/
def c1fs1 : FileMap :=
  match archive env0 cl1 sSaved none [] with
  | .ok (_, f) => f
  | .error _ => []

/-- Result of the second concrete run over `cl1`. -/
def c1run2 : List Char × FileMap :=
  match archive env0 cl1 sSaved (some c1content) c1fs1 with
  | .ok r => r
  | .error _ => ([], [])

/-- Error token for the failing-step scenarios. -/
def eBoom : List Char := "boom".data

/-- Item environment agreeing with `env0` except on the already-archived
post `aa1`, where it fails; used to exhibit that skipped items are never
invoked. -/
def envW : ItemEnv :=
  { render := fun p => if p.id = pa.id then .error eBoom else .ok (get_post_html p)
    saveMedia := fun p => (save_media mediaEnvNone [] p).map (fun r => r.1)
    createPage := fun _ h => .ok h }

/-- Already-archived post of the ordering scenario. -/
def pOld : Post :=
  { id := "old1".data, title := "Old".data, subreddit := "test".data
    author := some ("olda".data)
    url := "https://reddit.com/r/test/comments/old1/old/".data
    permalink := "/r/test/comments/old1/old/".data
    selftextHtml := none, created_utc := 0 }

/-- Fresh post of the ordering scenario. -/
def pNew : Post :=
  { id := "new1".data, title := "New".data, subreddit := "test".data
    author := some ("newa".data)
    url := "https://reddit.com/r/test/comments/new1/new/".data
    permalink := "/r/test/comments/new1/new/".data
    selftextHtml := none, created_utc := 0 }

/-- Client of the first ordering run (only the old post). -/
def cl2a : Client := { saved := [.post pOld], upvoted := [] }

/-- Client of the second ordering run (new post first, in fetch order). -/
def cl2 : Client := { saved := [.post pNew, .post pOld], upvoted := [] }

/-- Index produced by the first ordering run. -/
def c2base : List Char :=
  match archive env0 cl2a sSaved none [] with
  | .ok (c, _) => c
  | .error _ => []

/-- First post of the failure-isolation scenario. -/
def p31 : Post :=
  { id := "p1x".data, title := "One".data, subreddit := "test".data
    author := some ("u1".data)
    url := "https://reddit.com/r/test/comments/p1x/one/".data
    permalink := "/r/test/comments/p1x/one/".data
    selftextHtml := none, created_utc := 0 }

/-- Second post of the failure-isolation scenario (the one whose
processing fails). -/
def p32 : Post :=
  { id := "p2x".data, title := "Two".data, subreddit := "test".data
    author := some ("u2".data)
    url := "https://reddit.com/r/test/comments/p2x/two/".data
    permalink := "/r/test/comments/p2x/two/".data
    selftextHtml := none, created_utc := 0 }

/-- Third post of the failure-isolation scenario. -/
def p33 : Post :=
  { id := "p3x".data, title := "Three".data, subreddit := "test".data
    author := some ("u3".data)
    url := "https://reddit.com/r/test/comments/p3x/three/".data
    permalink := "/r/test/comments/p3x/three/".data
    selftextHtml := none, created_utc := 0 }

/-- Client of the failure-isolation scenario. -/
def cl3 : Client := { saved := [.post p31, .post p32, .post p33], upvoted := [] }

/-- Item environment whose fragment rendering raises on the second post
(a malformed-data failure in `get_post_html`). -/
def c3envBad : ItemEnv :=
  { render := fun p => if p.id = p32.id then .error eBoom else .ok (get_post_html p)
    saveMedia := fun p => (save_media mediaEnvNone [] p).map (fun r => r.1)
    createPage := fun _ h => .ok h }

/-- Item environment whose standalone-page creation raises on the second
post while rendering and media succeed. -/
def c3envPage : ItemEnv :=
  { render := fun p => .ok (get_post_html p)
    saveMedia := fun p => (save_media mediaEnvNone [] p).map (fun r => r.1)
    createPage := fun p h => if p.id = p32.id then .error eBoom else .ok h }

/-- Post of the direct-fetch scenario: a `.jpg` URL on a plain image
host. -/
def p4 : Post :=
  { id := "d1".data, title := "Pic".data, subreddit := "pics".data
    author := some ("pu".data)
    url := "https://i.example.com/pic.jpg".data
    permalink := "/r/pics/comments/d1/mypic/".data
    selftextHtml := none, created_utc := 0 }

/-- Bytes of the mocked direct-fetch response. -/
def bytes4 : List Char := "JPEGBYTES".data

/-- Media environment answering the direct fetch with `image/jpeg`. -/
def menv4ok : MediaEnv :=
  { net := fun _ => some { contentType := "image/jpeg".data, content := bytes4, status := 200 }
    redvid := fun _ => none, ydl := fun _ _ => none }

/-- Media environment answering the direct fetch with `text/html`. -/
def menv4bad : MediaEnv :=
  { net := fun _ => some { contentType := "text/html".data, content := bytes4, status := 200 }
    redvid := fun _ => none, ydl := fun _ _ => none }

/-- Container string of the sanitizer scenario. -/
def sX : List Char := "x".data

/-- Title string of the sanitizer scenario. -/
def sCON : List Char := "CON".data

/-- Post of the redirect-resolution scenario: a gfycat page URL. -/
def p6 : Post :=
  { id := "g1".data, title := "Cat".data, subreddit := "gifs".data
    author := some ("gu".data)
    url := "https://gfycat.com/funnycat".data
    permalink := "/r/gifs/comments/g1/cat/".data
    selftextHtml := none, created_utc := 0 }

/-- Small gfycat page body embedding a direct video link. -/
def body6 : List Char := "see http://a.b/v.mp4 ok".data

/-- Media environment serving the small gfycat page. -/
def menv6 : MediaEnv :=
  { net := fun _ => some { contentType := "text/html".data, content := body6, status := 200 }
    redvid := fun _ => none, ydl := fun _ _ => none }

/-- Malformed URL without a scheme-and-host part. -/
def sBadUrl : List Char := "abc.jpg".data

/-- Ordinary permalink used with the malformed URL. -/
def sPlink7 : List Char := "/r/x/comments/1/slug/".data

/-- URL whose path ends in a dot, giving an empty extension. -/
def sDotUrl : List Char := "https://x.com/file.".data

/-- Post of the standalone-page overwrite scenario. -/
def p8 : Post :=
  { id := "p1".data, title := "Page".data, subreddit := "t".data
    author := some ("u8".data)
    url := "https://reddit.com/r/t/comments/p1/page/".data
    permalink := "/r/t/comments/p1/page/".data
    selftextHtml := none, created_utc := 0 }

/-- Client of the overwrite scenario. -/
def cl8 : Client := { saved := [.post p8], upvoted := [] }

/-- Posts directory holding both the sanitized name and the
identifier-suffixed name before the run. -/
def fs8 : FileMap :=
  [("t_Page.html".data, "OLD1".data), ("t_Page_p1.html".data, "OLD2".data)]

/-- Item environment of the overwrite scenario, with a fixed page body. -/
def env8 : ItemEnv :=
  { render := fun p => .ok (get_post_html p)
    saveMedia := fun p => (save_media mediaEnvNone [] p).map (fun r => r.1)
    createPage := fun _ _ => .ok ("PAGE".data) }

/-- Mode string `upvoted`. -/
def sUpvoted : List Char := "upvoted".data

/-- Saved comment present in the client of the mode scenario. -/
def c10 : Comment :=
  .mk ("cc1".data) (some ("cu".data)) (some ("<p>c</p>".data)) 3
    ("/r/test/comments/aa1/alpha/cc1/".data) 0 []

/-- Client of the mode scenario: a saved comment, nothing upvoted. -/
def cl10 : Client := { saved := [.comment c10], upvoted := [] }

/-- Existing index of the mode scenario, holding one comment fragment. -/
def existing10 : List Char := buildFinal [] [get_comment_html c10 true none]

/-- Reply of the nested-comment scenario. -/
def cReply : Comment :=
  .mk ("ch1".data) (some ("cu2".data)) (some ("<p>r</p>".data)) 1
    ("/r/test/comments/aa1/alpha/ch1/".data) 0 []

/-- Saved comment with one reply: rendered with `children=True`, its
fragment embeds the reply's own `<!--commentend--></div>` terminator. -/
def cParent : Comment :=
  .mk ("par1".data) (some ("cu1".data)) (some ("<p>p</p>".data)) 2
    ("/r/test/comments/aa1/alpha/par1/".data) 0 [cReply]

/-- Post carrying a malformed URL without a scheme-and-host part. -/
def p7 : Post :=
  { id := "m1".data, title := "Bad".data, subreddit := "x".data
    author := none
    url := sBadUrl
    permalink := sPlink7
    selftextHtml := none, created_utc := 0 }

/-- Extension string `jpg`. -/
def sJpg : List Char := "jpg".data

/-- Domain string `example.com`. -/
def sExample : List Char := "example.com".data

/-- Slug string `mypic`. -/
def sMypic : List Char := "mypic".data

/-- Extension classified for the gfycat URL (no real extension, so the
lowercased text after the last dot of the stripped URL). -/
def sComFunny : List Char := "com/funnycat".data

/-- Slug string `cat`. -/
def sCat : List Char := "cat".data

/-- Video URL resolved out of the gfycat page body `body6`. -/
def m6res : List Char := "http://a.b/v.mp4".data

/-- Identifier-suffixed standalone page name of the overwrite scenario. -/
def sSuf8 : List Char := "t_Page_p1.html".data

/-- Page body written by the overwrite scenario. -/
def sPage8 : List Char := "PAGE".data

/-- Content held by the suffixed name before the overwrite scenario. -/
def sOld2 : List Char := "OLD2".data

/-- Directory produced by the ordering-scenario run. -/
def fsW2 : FileMap :=
  match processPosts env0 (newPostsOf cl2 sSaved (some c2base)) [] with
  | .ok (_, f) => f
  | .error _ => []

/-- Result of the overwrite-scenario run. -/
def c8run : List Char × FileMap :=
  match archive env8 cl8 sSaved none fs8 with
  | .ok r => r
  | .error _ => ([], [])

deriving instance DecidableEq for Except


theorem takeBody_length (cls : Char → Bool) (E : List Char) :
    ∀ l b rem, takeBody cls E l = some (b, rem) → rem.length < l.length := by
  intro l
  induction l with
  | nil => intro b rem h; simp [takeBody] at h
  | cons c rest ih =>
    intro b rem h
    simp only [takeBody] at h
    by_cases hc : cls c
    · rw [if_pos hc] at h
      by_cases hE : E <+: rest
      · rw [if_pos hE] at h
        obtain ⟨hb, hr⟩ := Prod.mk.injEq .. ▸ Option.some.injEq .. ▸ h
        subst hr
        exact Nat.lt_succ_of_le (by simp)
      · rw [if_neg hE] at h
        cases htb : takeBody cls E rest with
        | none => rw [htb] at h; exact absurd h (by simp)
        | some pr =>
          obtain ⟨b', rem'⟩ := pr
          rw [htb] at h
          obtain ⟨hb, hr⟩ := Prod.mk.injEq .. ▸ Option.some.injEq .. ▸ h
          subst hr
          exact Nat.lt_succ_of_lt (ih b' rem' htb)
    · rw [if_neg hc] at h; exact absurd h (by simp)

theorem reFindAllGo_fuel (S : List Char) (cls : Char → Bool) (E : List Char) :
    ∀ f₁ f₂ l, l.length ≤ f₁ → l.length ≤ f₂ →
      reFindAllGo S cls E f₁ l = reFindAllGo S cls E f₂ l := by
  intro f₁
  induction f₁ with
  | zero =>
    intro f₂ l h1 _
    have : l = [] := List.eq_nil_of_length_eq_zero (Nat.le_zero.mp h1)
    subst this
    cases f₂ <;> rfl
  | succ f ih =>
    intro f₂ l h1 h2
    cases l with
    | nil => cases f₂ <;> rfl
    | cons c rest =>
      cases f₂ with
      | zero => exact absurd h2 (by simp)
      | succ g =>
        simp only [reFindAllGo]
        by_cases hS : S <+: (c :: rest)
        · rw [if_pos hS, if_pos hS]
          cases htb : takeBody cls E ((c :: rest).drop S.length) with
          | none =>
            exact ih g rest (Nat.le_of_succ_le_succ h1) (Nat.le_of_succ_le_succ h2)
          | some pr =>
            obtain ⟨b, rem⟩ := pr
            have hlt : rem.length < ((c :: rest).drop S.length).length :=
              takeBody_length cls E _ b rem htb
            have hd : ((c :: rest).drop S.length).length = (rest.length + 1) - S.length := by
              simp
            have hle : rem.length ≤ rest.length := by omega
            show b :: reFindAllGo S cls E f rem = b :: reFindAllGo S cls E g rem
            rw [ih g rem (Nat.le_trans hle (Nat.le_of_succ_le_succ h1))
                (Nat.le_trans hle (Nat.le_of_succ_le_succ h2))]
        · rw [if_neg hS, if_neg hS]
          exact ih g rest (Nat.le_of_succ_le_succ h1) (Nat.le_of_succ_le_succ h2)

theorem reFindAll_nil (S : List Char) (cls : Char → Bool) (E : List Char) :
    reFindAll S cls E [] = [] := rfl

theorem reFindAll_cons_not (S : List Char) (cls : Char → Bool) (E : List Char)
    (c : Char) (rest : List Char) (h : ¬ S <+: (c :: rest)) :
    reFindAll S cls E (c :: rest) = reFindAll S cls E rest := by
  show reFindAllGo S cls E (rest.length + 1) (c :: rest) = _
  simp only [reFindAllGo, if_neg h]
  rfl

theorem reFindAll_match (S : List Char) (cls : Char → Bool) (E : List Char)
    (l b rem : List Char) (hS : S <+: l)
    (htb : takeBody cls E (l.drop S.length) = some (b, rem)) :
    reFindAll S cls E l = b :: reFindAll S cls E rem := by
  cases l with
  | nil =>
    exfalso
    have : S = [] := List.prefix_nil.mp hS
    subst this
    simp [takeBody] at htb
  | cons c rest =>
    show reFindAllGo S cls E (rest.length + 1) (c :: rest) = _
    simp only [reFindAllGo, if_pos hS, htb]
    have hlt : rem.length < ((c :: rest).drop S.length).length :=
      takeBody_length cls E _ b rem htb
    have hle : rem.length ≤ rest.length := by
      have h2 : ((c :: rest).drop S.length).length ≤ rest.length + 1 := by simp
      omega
    rw [reFindAllGo_fuel S cls E rest.length rem.length rem hle (Nat.le_refl _)]
    rfl

theorem prefix_of_append_len {S X Y : List Char} (h : S <+: X ++ Y)
    (hl : S.length ≤ X.length) : S <+: X := by
  have hs := List.prefix_iff_eq_take.mp h
  rw [List.take_append_of_le_length hl] at hs
  exact List.prefix_iff_eq_take.mpr hs

theorem head_of_ne_nil_pre {l : List Char} {c : Char} {rest : List Char}
    (h : l <+: c :: rest) (hne : l ≠ []) : l.head? = some c := by
  obtain ⟨u, hu⟩ := h
  cases l with
  | nil => exact absurd rfl hne
  | cons a as => cases hu; rfl

theorem mem_of_getLast_some {l : List Char} {a : Char} (h : l.getLast? = some a) :
    a ∈ l := by
  obtain ⟨hne, hx⟩ := List.mem_getLast?_eq_getLast (l := l) (x := a) (by rw [h]; rfl)
  rw [hx]
  exact List.getLast_mem hne

theorem no_prefix_span {S X Y : List Char} (hnl : '\n' ∉ S) (hX : ¬ S <:+: X)
    (hbar : X.getLast? = some '\n' ∨ Y.head? = some '\n') :
    ¬ S <+: (X ++ Y) := by
  intro h
  by_cases hl : S.length ≤ X.length
  · exact hX (prefix_of_append_len h hl).isInfix
  · have hXS : X <+: S :=
      List.prefix_of_prefix_length_le (List.prefix_append X Y) h
        (Nat.le_of_lt (Nat.lt_of_not_le hl))
    obtain ⟨t, ht⟩ := hXS
    have htY : t <+: Y := by
      obtain ⟨u, hu⟩ := h
      rw [← ht, List.append_assoc] at hu
      exact ⟨u, List.append_cancel_left hu⟩
    have htne : t ≠ [] := by
      intro hveq
      rw [hveq, List.append_nil] at ht
      rw [← ht] at hl
      exact hl (Nat.le_refl _)
    cases hbar with
    | inl hlast =>
      have : '\n' ∈ S := ht ▸ (List.mem_append_left t (mem_of_getLast_some hlast))
      exact hnl this
    | inr hhead =>
      cases t with
      | nil => exact absurd rfl htne
      | cons a t' =>
        cases Y with
        | nil => exact absurd htY (by simp)
        | cons b Y' =>
          have hab : a = b := by
            have := head_of_ne_nil_pre htY (by simp)
            simpa using this
          have hbnl : b = '\n' := by simpa using hhead
          have han : a = '\n' := hab.trans hbnl
          have : '\n' ∈ S := by
            rw [← ht, ← han]
            exact List.mem_append_right X (List.mem_cons_self a t')
          exact hnl this

theorem not_infix_append {S : List Char} : ∀ {X Y : List Char}, '\n' ∉ S →
    ¬ S <:+: X → ¬ S <:+: Y →
    (X.getLast? = some '\n' ∨ Y.head? = some '\n') → ¬ S <:+: X ++ Y := by
  intro X
  induction X with
  | nil =>
    intro Y _ _ hY _ h
    exact hY h
  | cons c X' ih =>
    intro Y hnl hX hY hbar h
    rcases List.infix_cons_iff.mp h with hpre | hinf
    · exact no_prefix_span hnl hX hbar hpre
    · cases X' with
      | nil => exact hY (by simpa using hinf)
      | cons d X'' =>
        refine ih hnl (fun hc => hX (List.infix_cons hc)) hY ?_ hinf
        cases hbar with
        | inl hlast => exact Or.inl (by simpa [List.getLast?_cons_cons] using hlast)
        | inr hhead => exact Or.inr hhead

theorem not_prefix_nl_cons {S : List Char} (hS : S ≠ []) (hnl : '\n' ∉ S)
    (w : List Char) : ¬ S <+: ('\n' :: w) := by
  intro h
  have hh := head_of_ne_nil_pre h hS
  cases S with
  | nil => exact hS rfl
  | cons a S' =>
    have : a = '\n' := by simpa using hh
    exact hnl (this ▸ List.mem_cons_self a S')

theorem not_infix_singleton_nl {S : List Char} (hS : S ≠ []) (hnl : '\n' ∉ S) :
    ¬ S <:+: ['\n'] := by
  intro h
  rcases List.infix_cons_iff.mp h with hpre | hinf
  · exact not_prefix_nl_cons hS hnl [] hpre
  · exact hS (by simpa using hinf)

theorem not_infix_joinNl {S : List Char} (hS : S ≠ []) (hnl : '\n' ∉ S) :
    ∀ {fs : List (List Char)}, (∀ f ∈ fs, ¬ S <:+: f) → ¬ S <:+: joinNl fs := by
  intro fs
  induction fs with
  | nil =>
    intro _ h
    exact hS (by simpa [joinNl] using h)
  | cons x fs' ih =>
    intro hall
    cases fs' with
    | nil => simpa [joinNl] using hall x (List.mem_cons_self x [])
    | cons y rest =>
      show ¬ S <:+: (x ++ '\n' :: joinNl (y :: rest))
      have hx : ¬ S <:+: x := hall x (List.mem_cons_self x _)
      have htail : ¬ S <:+: joinNl (y :: rest) :=
        ih (fun f hf => hall f (List.mem_cons_of_mem x hf))
      have hmid : ¬ S <:+: ('\n' :: joinNl (y :: rest)) := by
        have : ('\n' :: joinNl (y :: rest)) = ['\n'] ++ joinNl (y :: rest) := rfl
        rw [this]
        exact not_infix_append hnl (not_infix_singleton_nl hS hnl) htail (Or.inl rfl)
      exact not_infix_append hnl hx hmid (Or.inr rfl)

theorem scan_clean (S : List Char) (cls : Char → Bool) (E : List Char) :
    ∀ {B : List Char}, ¬ S <:+: B → reFindAll S cls E B = [] := by
  intro B
  induction B with
  | nil => intro _; rfl
  | cons c rest ih =>
    intro h
    rw [reFindAll_cons_not S cls E c rest (fun hp => h hp.isInfix)]
    exact ih (fun hi => h (List.infix_cons hi))

theorem scan_skip (S : List Char) (cls : Char → Bool) (E : List Char) (hnl : '\n' ∉ S) :
    ∀ {X : List Char} (Y : List Char), ¬ S <:+: X →
      (X.getLast? = some '\n' ∨ Y.head? = some '\n') →
      reFindAll S cls E (X ++ Y) = reFindAll S cls E Y := by
  intro X
  induction X with
  | nil => intro Y _ _; rfl
  | cons c X' ih =>
    intro Y hX hbar
    have hnp : ¬ S <+: ((c :: X') ++ Y) := no_prefix_span hnl hX hbar
    rw [List.cons_append] at hnp ⊢
    rw [reFindAll_cons_not S cls E c (X' ++ Y) hnp]
    cases X' with
    | nil => rfl
    | cons d X'' =>
      refine ih Y (fun hc => hX (List.infix_cons hc)) ?_
      cases hbar with
      | inl hlast => exact Or.inl (by simpa [List.getLast?_cons_cons] using hlast)
      | inr hhead => exact Or.inr hhead

theorem takeBody_complete (cls : Char → Bool) (E : List Char) :
    ∀ (M : List Char) (rest : List Char), M ≠ [] → (∀ c ∈ M, cls c = true) →
      noEarlyE E M → takeBody cls E (M ++ E ++ rest) = some (M, rest) := by
  intro M
  induction M with
  | nil => intro rest h; exact absurd rfl h
  | cons c M' ih =>
    intro rest _ hcls hne
    have hc : cls c = true := hcls c (List.mem_cons_self c M')
    cases M' with
    | nil =>
      show takeBody cls E (c :: (E ++ rest)) = some ([c], rest)
      simp only [takeBody, hc, if_true]
      rw [if_pos (List.prefix_append E rest), List.drop_left]
    | cons d M'' =>
      have hstep : ¬ E <+: ((d :: M'') ++ E ++ rest) := by
        intro hE
        have hlen : E.length ≤ ((d :: M'') ++ E).length := by
          simp [List.length_append]; omega
        rw [List.append_assoc] at hE
        have := prefix_of_append_len (X := (d :: M'') ++ E) (Y := rest)
          (by rwa [List.append_assoc]) hlen
        have hidx := hne 1 (by simp) (by omega)
        apply hidx
        show E <+: ((c :: (d :: M'') ++ E).drop 1)
        simpa using this
      have hrec := ih rest (by simp) (fun x hx => hcls x (List.mem_cons_of_mem c hx))
        (by
          intro i hi h1
          have := hne (i + 1) (by simpa using Nat.succ_lt_succ hi) (by omega)
          intro hE
          apply this
          show E <+: ((c :: (d :: M'') ++ E).drop (i + 1))
          simpa using hE)
      show takeBody cls E (c :: ((d :: M'') ++ E ++ rest)) = some (c :: (d :: M''), rest)
      rw [takeBody, if_pos hc, if_neg hstep, hrec]

theorem takeBody_sound (cls : Char → Bool) (E : List Char) :
    ∀ l b rem, takeBody cls E l = some (b, rem) →
      b ≠ [] ∧ (∀ c ∈ b, cls c = true) ∧ l = b ++ E ++ rem ∧ noEarlyE E b := by
  intro l
  induction l with
  | nil => intro b rem h; simp [takeBody] at h
  | cons c rest ih =>
    intro b rem h
    simp only [takeBody] at h
    by_cases hc : cls c
    · rw [if_pos hc] at h
      by_cases hE : E <+: rest
      · rw [if_pos hE] at h
        obtain ⟨hb, hr⟩ := Prod.mk.injEq .. ▸ Option.some.injEq .. ▸ h
        subst hb; subst hr
        obtain ⟨t, ht⟩ := hE
        refine ⟨by simp, by simpa using hc, ?_, ?_⟩
        · rw [← ht, List.drop_left]; rfl
        · intro i hi h1
          simp at hi
          omega
      · rw [if_neg hE] at h
        cases htb : takeBody cls E rest with
        | none => rw [htb] at h; exact absurd h (by simp)
        | some pr =>
          obtain ⟨b', rem'⟩ := pr
          rw [htb] at h
          obtain ⟨hb, hr⟩ := Prod.mk.injEq .. ▸ Option.some.injEq .. ▸ h
          subst hb; subst hr
          obtain ⟨hb'ne, hb'cls, hrest, hb'ne2⟩ := ih b' rem' htb
          refine ⟨by simp, ?_, ?_, ?_⟩
          · intro x hx
            rcases List.mem_cons.mp hx with hx | hx
            · exact hx ▸ (by simpa using hc)
            · exact hb'cls x hx
          · rw [hrest]; rfl
          · intro i hi h1
            match i, h1 with
            | 1, _ =>
              intro hpre
              apply hE
              have : (c :: b' ++ E).drop 1 = b' ++ E := by simp
              rw [this] at hpre
              rw [hrest]
              exact hpre.trans (List.prefix_append (b' ++ E) rem')
            | (j + 2), _ =>
              have hj : j + 1 < b'.length := by
                simp at hi
                omega
              have := hb'ne2 (j + 1) hj (by omega)
              intro hpre
              apply this
              show E <+: ((b' ++ E).drop (j + 1))
              have : (c :: b' ++ E).drop (j + 2) = (b' ++ E).drop (j + 1) := by simp
              rw [this] at hpre
              exact hpre
    · rw [if_neg hc] at h; exact absurd h (by simp)

theorem fragMiddle_mk (S E M : List Char) : fragMiddle S E (S ++ M ++ E) = M := by
  unfold fragMiddle
  rw [List.append_assoc, List.drop_left]
  have hlen : (S ++ (M ++ E)).length - (S.length + E.length) = M.length := by
    simp [List.length_append]
    omega
  rw [hlen]
  exact List.take_left M E

theorem scan_frag {S : List Char} {cls : Char → Bool} {E f : List Char}
    (hwf : WFfrag S cls E f) (rest : List Char) :
    reFindAll S cls E (f ++ rest) = fragMiddle S E f :: reFindAll S cls E rest := by
  obtain ⟨hshape, hne, hcls, hnoe⟩ := hwf
  have hpre : S <+: (f ++ rest) := by
    rw [hshape, List.append_assoc, List.append_assoc]
    exact List.prefix_append S _
  have hdrop : (f ++ rest).drop S.length = fragMiddle S E f ++ E ++ rest := by
    rw [hshape, List.append_assoc, List.append_assoc, List.drop_left, ← List.append_assoc,
      fragMiddle_mk]
  refine reFindAll_match S cls E (f ++ rest) (fragMiddle S E f) rest hpre ?_
  rw [hdrop]
  exact takeBody_complete cls E (fragMiddle S E f) rest hne hcls hnoe

theorem scan_join {S : List Char} (cls : Char → Bool) {E : List Char}
    (hS : S ≠ []) (hnl : '\n' ∉ S) :
    ∀ (frags : List (List Char)) (B : List Char), (∀ f ∈ frags, WFfrag S cls E f) →
      ¬ S <:+: B →
      reFindAll S cls E (joinNl frags ++ B) = frags.map (fragMiddle S E) := by
  intro frags
  induction frags with
  | nil =>
    intro B _ hB
    exact scan_clean S cls E hB
  | cons f frags' ih =>
    intro B hall hB
    cases frags' with
    | nil =>
      show reFindAll S cls E (f ++ B) = [fragMiddle S E f]
      rw [scan_frag (hall f (List.mem_cons_self f [])) B, scan_clean S cls E hB]
    | cons g rest =>
      show reFindAll S cls E ((f ++ '\n' :: joinNl (g :: rest)) ++ B) = _
      rw [List.append_assoc]
      rw [scan_frag (hall f (List.mem_cons_self f _)) (('\n' :: joinNl (g :: rest)) ++ B)]
      have hcons : ('\n' :: joinNl (g :: rest)) ++ B = '\n' :: (joinNl (g :: rest) ++ B) := rfl
      rw [hcons, reFindAll_cons_not S cls E '\n' (joinNl (g :: rest) ++ B)
        (not_prefix_nl_cons hS hnl _)]
      rw [ih B (fun x hx => hall x (List.mem_cons_of_mem f hx)) hB]
      rfl

theorem replaceGo_fuel (pat rep : List Char) (hpat : pat ≠ []) :
    ∀ f₁ f₂ l, l.length ≤ f₁ → l.length ≤ f₂ →
      replaceGo pat rep f₁ l = replaceGo pat rep f₂ l := by
  intro f₁
  induction f₁ with
  | zero =>
    intro f₂ l h1 _
    have : l = [] := List.eq_nil_of_length_eq_zero (Nat.le_zero.mp h1)
    subst this
    cases f₂ <;> rfl
  | succ f ih =>
    intro f₂ l h1 h2
    cases l with
    | nil => cases f₂ <;> rfl
    | cons c rest =>
      cases f₂ with
      | zero => exact absurd h2 (by simp)
      | succ g =>
        simp only [replaceGo]
        by_cases hp : pat <+: (c :: rest)
        · rw [if_pos hp, if_pos hp]
          have hplen : 1 ≤ pat.length := by
            cases pat with
            | nil => exact absurd rfl hpat
            | cons a as => simp
          have hle : ((c :: rest).drop pat.length).length ≤ rest.length := by
            simp
            omega
          rw [ih g ((c :: rest).drop pat.length)
            (Nat.le_trans hle (Nat.le_of_succ_le_succ h1))
            (Nat.le_trans hle (Nat.le_of_succ_le_succ h2))]
        · rw [if_neg hp, if_neg hp]
          rw [ih g rest (Nat.le_of_succ_le_succ h1) (Nat.le_of_succ_le_succ h2)]

theorem replaceAll_cons_not (pat rep : List Char) (c : Char) (rest : List Char)
    (h : ¬ pat <+: (c :: rest)) :
    replaceAll pat rep (c :: rest) = c :: replaceAll pat rep rest := by
  have hpat : pat ≠ [] := by
    intro he
    exact h (he ▸ List.nil_prefix)
  unfold replaceAll
  rw [if_neg hpat, if_neg hpat]
  show replaceGo pat rep (rest.length + 1) (c :: rest) = _
  simp only [replaceGo, if_neg h]

theorem replaceAll_match (pat rep : List Char) (hpat : pat ≠ []) (Z : List Char) :
    replaceAll pat rep (pat ++ Z) = rep ++ replaceAll pat rep Z := by
  unfold replaceAll
  rw [if_neg hpat, if_neg hpat]
  cases hp : pat ++ Z with
  | nil =>
    exfalso
    exact hpat (List.append_eq_nil.mp hp).1
  | cons c rest =>
    rw [← hp]
    have hlen : (pat ++ Z).length = Z.length + pat.length := by
      simp [List.length_append]
      omega
    have hplen : 1 ≤ pat.length := by
      cases pat with
      | nil => exact absurd rfl hpat
      | cons a as => simp
    obtain ⟨f, hf⟩ : ∃ f, (pat ++ Z).length = f + 1 := by
      refine ⟨(pat ++ Z).length - 1, ?_⟩
      rw [hlen]
      omega
    rw [hf, hp]
    show replaceGo pat rep (f + 1) (c :: rest) = _
    rw [replaceGo, if_pos (hp ▸ List.prefix_append pat Z), ← hp, List.drop_left]
    congr 1
    apply replaceGo_fuel pat rep hpat
    · have : (pat ++ Z).length = (c :: rest).length := by rw [hp]
      simp at this
      omega
    · exact Nat.le_refl _

theorem replace_clean (pat rep : List Char) :
    ∀ {Z : List Char}, ¬ pat <:+: Z → replaceAll pat rep Z = Z := by
  intro Z
  induction Z with
  | nil =>
    intro h
    have hpat : pat ≠ [] := fun he => h (he ▸ List.nil_infix)
    unfold replaceAll
    rw [if_neg hpat]
    rfl
  | cons c rest ih =>
    intro h
    rw [replaceAll_cons_not pat rep c rest (fun hp => h hp.isInfix)]
    rw [ih (fun hi => h (List.infix_cons hi))]

theorem replace_skip (pat rep : List Char) (hnl : '\n' ∉ pat) :
    ∀ {X : List Char} (Y : List Char), ¬ pat <:+: X →
      (X.getLast? = some '\n' ∨ Y.head? = some '\n') →
      replaceAll pat rep (X ++ Y) = X ++ replaceAll pat rep Y := by
  intro X
  induction X with
  | nil => intro Y _ _; rfl
  | cons c X' ih =>
    intro Y hX hbar
    have hnp : ¬ pat <+: ((c :: X') ++ Y) := no_prefix_span hnl hX hbar
    rw [List.cons_append] at hnp
    show replaceAll pat rep (c :: (X' ++ Y)) = _
    rw [replaceAll_cons_not pat rep c (X' ++ Y) hnp]
    cases X' with
    | nil => rfl
    | cons d X'' =>
      rw [ih Y (fun hc => hX (List.infix_cons hc)) ?_]
      · rfl
      · cases hbar with
        | inl hlast => exact Or.inl (by simpa [List.getLast?_cons_cons] using hlast)
        | inr hhead => exact Or.inr hhead

theorem buildFinal_decomp (P C : List (List Char))
    (hP : ∀ f ∈ P, ¬ mComments <:+: f) :
    buildFinal P C = idxA ++ (joinNl P ++ (idxMid ++ (joinNl C ++ idxZ))) := by
  have hbase : idxBase = idxA ++ (mPosts ++ (idxMid ++ (mComments ++ idxZ))) := by decide
  show replaceAll mComments (joinNl C) (replaceAll mPosts (joinNl P) idxBase) = _
  rw [hbase]
  rw [replace_skip mPosts (joinNl P) (by decide) _ (by decide) (Or.inl (by decide))]
  rw [replaceAll_match mPosts (joinNl P) (by decide)]
  rw [replace_clean mPosts (joinNl P) (by decide)]
  rw [replace_skip mComments (joinNl C) (by decide) _ (by decide) (Or.inl (by decide))]
  rw [replace_skip mComments (joinNl C) (by decide)
    (idxMid ++ (mComments ++ idxZ))
    (not_infix_joinNl (by decide) (by decide) hP) (Or.inr (by decide))]
  rw [replace_skip mComments (joinNl C) (by decide) _ (by decide) (Or.inl (by decide))]
  rw [replaceAll_match mComments (joinNl C) (by decide)]
  rw [replace_clean mComments (joinNl C) (by decide)]

theorem extract_posts_of_buildFinal (P C : List (List Char))
    (hP : ∀ f ∈ P, postFragOk f) (hC : ∀ f ∈ C, commentFragOk f) :
    (get_existing_items (some (buildFinal P C)) clsPost).2 = P := by
  have hdecomp := buildFinal_decomp P C (fun f hf => (hP f hf).2.1)
  show (reFindAll (fragS clsPost) fragCls (fragE clsPost) (buildFinal P C)).map
    (fun b => fragS clsPost ++ b ++ fragE clsPost) = P
  rw [hdecomp]
  rw [scan_skip (fragS clsPost) fragCls (fragE clsPost) (by decide) _ (by decide)
    (Or.inl (by decide))]
  have hB : ¬ fragS clsPost <:+: (idxMid ++ (joinNl C ++ idxZ)) := by
    refine not_infix_append (by decide) (by decide) ?_ (Or.inl (by decide))
    exact not_infix_append (by decide)
      (not_infix_joinNl (by decide) (by decide) (fun f hf => (hC f hf).2)) (by decide)
      (Or.inr (by decide))
  rw [scan_join fragCls (by decide) (by decide) P _ (fun f hf => (hP f hf).1) hB]
  rw [List.map_map]
  have hid : ∀ f ∈ P,
      ((fun b => fragS clsPost ++ b ++ fragE clsPost) ∘
        fragMiddle (fragS clsPost) (fragE clsPost)) f = f :=
    fun f hf => ((hP f hf).1.1).symm
  rw [List.map_congr_left hid]; exact List.map_id P

theorem extract_comments_of_buildFinal (P C : List (List Char))
    (hP : ∀ f ∈ P, postFragOk f) (hC : ∀ f ∈ C, commentFragOk f) :
    (get_existing_items (some (buildFinal P C)) clsComment).2 = C := by
  have hdecomp := buildFinal_decomp P C (fun f hf => (hP f hf).2.1)
  show (reFindAll (fragS clsComment) fragCls (fragE clsComment) (buildFinal P C)).map
    (fun b => fragS clsComment ++ b ++ fragE clsComment) = C
  rw [hdecomp]
  rw [scan_skip (fragS clsComment) fragCls (fragE clsComment) (by decide) _ (by decide)
    (Or.inl (by decide))]
  rw [scan_skip (fragS clsComment) fragCls (fragE clsComment) (by decide)
    (idxMid ++ (joinNl C ++ idxZ))
    (not_infix_joinNl (by decide) (by decide) (fun f hf => (hP f hf).2.2))
    (Or.inr rfl)]
  rw [scan_skip (fragS clsComment) fragCls (fragE clsComment) (by decide) _ (by decide)
    (Or.inl (by decide))]
  rw [scan_join fragCls (by decide) (by decide) C idxZ (fun f hf => (hC f hf).1)
    (by decide)]
  rw [List.map_map]
  have hid : ∀ f ∈ C,
      ((fun b => fragS clsComment ++ b ++ fragE clsComment) ∘
        fragMiddle (fragS clsComment) (fragE clsComment)) f = f :=
    fun f hf => ((hC f hf).1.1).symm
  rw [List.map_congr_left hid]; exact List.map_id C

theorem processPosts_congr (env env' : ItemEnv) :
    ∀ (l : List Post) (fs : FileMap),
      (∀ p ∈ l, env.render p = env'.render p ∧ env.saveMedia p = env'.saveMedia p ∧
        env.createPage p = env'.createPage p) →
      processPosts env l fs = processPosts env' l fs := by
  intro l
  induction l with
  | nil => intro fs _; rfl
  | cons p rest ih =>
    intro fs h
    obtain ⟨hr, hm, hc⟩ := h p (List.mem_cons_self p rest)
    have htail : ∀ fs', processPosts env rest fs' = processPosts env' rest fs' :=
      fun fs' => ih fs' (fun q hq => h q (List.mem_cons_of_mem p hq))
    have hpw : ∀ fs₂ ph, pageWriteStep env' fs₂ p ph = pageWriteStep env fs₂ p ph := by
      intro fs₂ ph
      unfold pageWriteStep
      rw [hc]
    simp only [processPosts]
    rw [← hr, ← hm]
    simp only [hpw, htail]

theorem processPosts_ok (env : ItemEnv) :
    ∀ (l : List Post) (fs : FileMap),
      (∀ p ∈ l, (∃ h, env.render p = .ok h) ∧ (∃ m, env.saveMedia p = .ok m)) →
      ∃ fs', processPosts env l fs = .ok (l.map (stepFrag env), fs') := by
  intro l
  induction l with
  | nil => intro fs _; exact ⟨fs, rfl⟩
  | cons p rest ih =>
    intro fs hall
    obtain ⟨⟨h, hr⟩, ⟨m, hm⟩⟩ := hall p (List.mem_cons_self p rest)
    have hstep : stepFrag env p = mediaApply h m := by
      unfold stepFrag
      rw [hr, hm]
    obtain ⟨fs', htail⟩ := ih (pageWriteStep env fs p (mediaApply h m))
      (fun q hq => hall q (List.mem_cons_of_mem p hq))
    refine ⟨fs', ?_⟩
    simp only [processPosts, hr, hm]
    rw [htail, List.map_cons, hstep]

theorem processPosts_error (env : ItemEnv) (p : Post) (l2 : List Post) (e : List Char)
    (hfail : env.render p = .error e ∨
      (∃ h, env.render p = .ok h) ∧ env.saveMedia p = .error e) :
    ∀ (l1 : List Post) (fs : FileMap),
      (∀ q ∈ l1, (∃ h, env.render q = .ok h) ∧ (∃ m, env.saveMedia q = .ok m)) →
      processPosts env (l1 ++ p :: l2) fs = .error e := by
  intro l1
  induction l1 with
  | nil =>
    intro fs _
    rcases hfail with hre | ⟨⟨h, hr⟩, hm⟩
    · simp only [List.nil_append, processPosts, hre]
    · simp only [List.nil_append, processPosts, hr, hm]
  | cons q l1' ih =>
    intro fs hall
    obtain ⟨⟨h, hr⟩, ⟨m, hm⟩⟩ := hall q (List.mem_cons_self q _)
    have htail := ih (pageWriteStep env fs q (mediaApply h m))
      (fun x hx => hall x (List.mem_cons_of_mem q hx))
    simp only [List.cons_append, processPosts, hr, hm, List.append_eq, htail]

theorem fsLookup_cons (e : List Char × List Char) (fs : FileMap) (k : List Char) :
    fsLookup (e :: fs) k = if e.1 = k then some e.2 else fsLookup fs k := by
  by_cases he : e.1 = k
  · unfold fsLookup
    rw [List.find?_cons_of_pos _ (by simpa using he), if_pos he]
    rfl
  · unfold fsLookup
    rw [List.find?_cons_of_neg _ (by simpa using he), if_neg he]

theorem fsLookup_map_write_ne : ∀ (fs : FileMap) (k v k' : List Char), k' ≠ k →
    fsLookup (fs.map (fun x => if x.1 = k then (k, v) else x)) k' = fsLookup fs k' := by
  intro fs k v k' hne
  induction fs with
  | nil => rfl
  | cons e fs' ih =>
    by_cases he : e.1 = k
    · simp only [List.map_cons, if_pos he]
      rw [fsLookup_cons, fsLookup_cons]
      rw [if_neg (show ¬ (k, v).1 = k' from fun hc => hne hc.symm),
        if_neg (show ¬ e.1 = k' from fun hc => hne (he ▸ hc).symm)]
      exact ih
    · simp only [List.map_cons, if_neg he]
      rw [fsLookup_cons, fsLookup_cons]
      by_cases hek : e.1 = k'
      · rw [if_pos hek, if_pos hek]
      · rw [if_neg hek, if_neg hek]
        exact ih

theorem fsLookup_append_ne : ∀ (fs : FileMap) (k v k' : List Char), k' ≠ k →
    fsLookup (fs ++ [(k, v)]) k' = fsLookup fs k' := by
  intro fs k v k' hne
  induction fs with
  | nil =>
    simp only [List.nil_append]
    rw [fsLookup_cons]
    rw [if_neg (show ¬ (k, v).1 = k' from fun hc => hne hc.symm)]
  | cons e fs' ih =>
    simp only [List.cons_append]
    rw [fsLookup_cons, fsLookup_cons]
    by_cases hek : e.1 = k'
    · rw [if_pos hek, if_pos hek]
    · rw [if_neg hek, if_neg hek]
      exact ih

theorem fsLookup_fsWrite_ne (fs : FileMap) (k v k' : List Char) (hne : k' ≠ k) :
    fsLookup (fsWrite fs k v) k' = fsLookup fs k' := by
  unfold fsWrite
  by_cases hany : fs.any (fun e => e.1 = k) = true
  · rw [if_pos hany]
    exact fsLookup_map_write_ne fs k v k' hne
  · rw [if_neg hany]
    exact fsLookup_append_ne fs k v k' hne

theorem fsLookup_fsWrite_self (fs : FileMap) (k v : List Char) :
    fsLookup (fsWrite fs k v) k = some v := by
  unfold fsWrite
  by_cases hany : fs.any (fun e => e.1 = k) = true
  · rw [if_pos hany]
    induction fs with
    | nil => simp at hany
    | cons e fs' ih =>
      by_cases he : e.1 = k
      · simp only [List.map_cons, if_pos he]
        rw [fsLookup_cons, if_pos (show ((k, v) : List Char × List Char).1 = k from rfl)]
      · simp only [List.map_cons, if_neg he]
        rw [fsLookup_cons, if_neg he]
        refine ih ?_
        simp only [List.any_cons, he] at hany
        simpa using hany
  · rw [if_neg hany]
    induction fs with
    | nil =>
      simp only [List.nil_append]
      rw [fsLookup_cons, if_pos (show ((k, v) : List Char × List Char).1 = k from rfl)]
    | cons e fs' ih =>
      have he : ¬ e.1 = k := by
        intro hcontra
        exact hany (by simp [List.any_cons, hcontra])
      have hany' : ¬ fs'.any (fun x => x.1 = k) = true := by
        intro hcontra
        exact hany (by simp [List.any_cons, hcontra])
      simp only [List.cons_append]
      rw [fsLookup_cons, if_neg he]
      exact ih hany'

theorem mem_newPostsOf {cl : Client} {mode : List Char} {existing : Option (List Char)}
    {p : Post} (hp : p ∈ newPostsOf cl mode existing) :
    p.id ∉ (get_existing_items existing clsPost).1 := by
  have h2 := (List.mem_filter.mp hp).2
  simpa using h2

theorem suffixed_ne_plain (base pid : List Char) :
    ¬ base ++ sUnd ++ pid ++ sDotHtml = base ++ sDotHtml := by
  intro h
  have hlen := congrArg List.length h
  have h1 : sUnd.length = 1 := by decide
  have h5 : sDotHtml.length = 5 := by decide
  simp only [List.length_append, h1, h5] at hlen
  omega

/-- Claim C5 (corrected): the reserved-name guard fires exactly when the
whole sanitized name case-insensitively matches a reserved device name,
and then prefixes it with `post_`.  Because the sanitizer prepends the
container, it is `sanitize_filename [] "CON"` — not
`sanitize_filename "x" "CON"` — that yields `post_CON`. -/
theorem C5_sanitizer_reserved :
    (∀ subreddit title : List Char,
      (sanitize_pre subreddit title).map Char.toUpper ∈ RESERVED →
      sanitize_filename subreddit title = sPostUnd ++ sanitize_pre subreddit title) ∧
    sanitize_filename [] sCON = sPostUnd ++ sCON := by
  constructor
  · intro subreddit title h
    simp only [sanitize_filename]
    rw [if_pos h]
  · decide

theorem C5_sanitizer_reserved_witness :
    sanitize_filename [] sCON = sPostUnd ++ sanitize_pre [] sCON :=
  C5_sanitizer_reserved.1 [] sCON (by decide)

/-- Claim C5 counterexample: `sanitize("x", "CON")` returns `x_CON` (the
combined container-title name, which is not reserved), not `post_CON`. -/
theorem C5_counterexample :
    sanitize_filename sX sCON = sX ++ sUnd ++ sCON ∧
    sanitize_filename sX sCON ≠ sPostUnd ++ sCON := by
  decide

/-- Claim C7 (amended): the classification is a deterministic total
function on every URL having a third `/`-separated part together with a
permalink having a non-empty segment, and the empty extension is a valid
output; on a URL without a scheme-and-host part it raises `IndexError`
instead of returning a best-effort guess (see the counterexample). -/
theorem C7_classifier_total :
    (∀ url permalink : List Char,
      2 < (splitOnChar '/' url).length →
      (splitOnChar '/' permalink).filter (fun part => part ≠ []) ≠ [] →
      (classifyUrl url permalink).isSome = true) ∧
    (∃ r, classifyUrl sDotUrl sPlink7 = some r ∧ r.1 = []) := by
  constructor
  · intro url permalink hu hp
    unfold classifyUrl
    obtain ⟨host, hhost⟩ : ∃ h, (splitOnChar '/' url).get? 2 = some h := by
      cases hg : (splitOnChar '/' url).get? 2 with
      | some h => exact ⟨h, rfl⟩
      | none =>
        exfalso
        have := List.get?_eq_none.mp hg
        omega
    rw [hhost]
    obtain ⟨rn, hrn⟩ : ∃ rn,
        ((splitOnChar '/' permalink).filter (fun part => part ≠ [])).getLast? = some rn := by
      cases hg : ((splitOnChar '/' permalink).filter (fun part => part ≠ [])).getLast? with
      | some rn => exact ⟨rn, rfl⟩
      | none => exact absurd (List.getLast?_eq_none_iff.mp hg) hp
    rw [hrn]
    rfl
  · exact ⟨_, rfl, rfl⟩

theorem C7_classifier_total_witness :
    (classifyUrl pa.url pa.permalink).isSome = true :=
  C7_classifier_total.1 pa.url pa.permalink (by decide) (by decide)

/-- Claim C7 counterexample: on a URL without a scheme-and-host part the
classification lines raise `IndexError` (modelled `none`), and
`save_media` propagates the exception instead of returning a best-effort
guess. -/
theorem C7_counterexample :
    classifyUrl sBadUrl sPlink7 = none ∧
    save_media mediaEnvNone [] p7 = .error eIndex :=
  ⟨rfl, rfl⟩

/-- Claim C10 (confirmed): in every mode other than `saved` the comment
fetch returns the empty list, so an archive pass renders no new comment
fragment and the comment section of the regenerated index is exactly the
comment-fragment list extracted from the previous index file. -/
theorem C10_nonsaved_comments (env : ItemEnv) (cl : Client) (mode : List Char)
    (existing : Option (List Char)) (fs : FileMap) (hmode : mode ≠ sSaved) :
    get_comments cl mode = [] ∧
    commentsHtmlOf cl mode existing = (get_existing_items existing clsComment).2 ∧
    (∀ content fs', archive env cl mode existing fs = .ok (content, fs') →
      ∃ postsHtml, content =
        buildFinal postsHtml (get_existing_items existing clsComment).2) := by
  have hgc : get_comments cl mode = [] := by
    unfold get_comments
    rw [if_pos hmode]
  have hch : commentsHtmlOf cl mode existing = (get_existing_items existing clsComment).2 := by
    unfold commentsHtmlOf newCommentsOf
    rw [hgc]
    rfl
  refine ⟨hgc, hch, ?_⟩
  intro content fs' h
  unfold archive at h
  cases hrun : processPosts env (newPostsOf cl mode existing) fs with
  | error e => rw [hrun] at h; exact absurd h (by simp)
  | ok pr =>
    obtain ⟨hs, fs2⟩ := pr
    rw [hrun] at h
    refine ⟨hs ++ (get_existing_items existing clsPost).2, ?_⟩
    have := (Prod.mk.injEq .. ▸ Except.ok.injEq .. ▸ h).1
    rw [← this, hch]

theorem C10_nonsaved_comments_witness :
    get_comments cl10 sUpvoted = [] ∧
    commentsHtmlOf cl10 sUpvoted (some existing10) =
      (get_existing_items (some existing10) clsComment).2 :=
  ⟨(C10_nonsaved_comments env0 cl10 sUpvoted (some existing10) [] (by decide)).1,
   (C10_nonsaved_comments env0 cl10 sUpvoted (some existing10) [] (by decide)).2.1⟩

/-- Claim C3 (corrected): the source guards only the standalone-page step
(`create_post_page_html` and the page write, reddit_archiver.py lines
388-402) at the item boundary, while `get_post_html` (line 378) and
`save_media` (line 381) run outside the `try`.  First part: whenever
fragment rendering and media fetching succeed for every new post, the
pass completes and every new post's fragment appears in the regenerated
index in order, however `createPage` fails — a page failure is caught at
the item boundary and the pass continues.  Second part: when fragment
rendering (or media fetching) of one new post raises after any prefix of
successfully processed posts, the exception propagates and the whole pass
returns that error — no index is written and no later post is reached. -/
theorem C3_failure_isolation :
    (∀ (env : ItemEnv) (cl : Client) (mode : List Char)
        (existing : Option (List Char)) (fs : FileMap),
      (∀ p ∈ newPostsOf cl mode existing,
        (∃ h, env.render p = .ok h) ∧ (∃ m, env.saveMedia p = .ok m)) →
      ∃ fs', archive env cl mode existing fs =
        .ok (buildFinal ((newPostsOf cl mode existing).map (stepFrag env) ++
          (get_existing_items existing clsPost).2)
          (commentsHtmlOf cl mode existing), fs')) ∧
    (∀ (env : ItemEnv) (cl : Client) (mode : List Char)
        (existing : Option (List Char)) (fs : FileMap)
        (l1 : List Post) (p : Post) (l2 : List Post) (e : List Char),
      newPostsOf cl mode existing = l1 ++ p :: l2 →
      (∀ q ∈ l1, (∃ h, env.render q = .ok h) ∧ (∃ m, env.saveMedia q = .ok m)) →
      (env.render p = .error e ∨
        (∃ h, env.render p = .ok h) ∧ env.saveMedia p = .error e) →
      archive env cl mode existing fs = .error e) := by
  constructor
  · intro env cl mode existing fs hok
    obtain ⟨fs', hrun⟩ := processPosts_ok env (newPostsOf cl mode existing) fs hok
    refine ⟨fs', ?_⟩
    unfold archive
    rw [hrun]
  · intro env cl mode existing fs l1 p l2 e hsplit hpre hfail
    unfold archive
    rw [hsplit, processPosts_error env p l2 e hfail l1 fs hpre]

theorem C3_failure_isolation_witness :
    (∃ fs', archive c3envPage cl3 sSaved none [] =
      .ok (buildFinal ((newPostsOf cl3 sSaved none).map (stepFrag c3envPage) ++
        (get_existing_items none clsPost).2)
        (commentsHtmlOf cl3 sSaved none), fs') ∧
      (newPostsOf cl3 sSaved none).map (stepFrag c3envPage) =
        [get_post_html p31, get_post_html p32, get_post_html p33]) ∧
    archive c3envBad cl3 sSaved none [] = .error eBoom := by
  constructor
  · obtain ⟨fs', h⟩ := C3_failure_isolation.1 c3envPage cl3 sSaved none []
      (by
        intro p hp
        refine ⟨⟨get_post_html p, rfl⟩, ?_⟩
        have hp' : p = p31 ∨ p = p32 ∨ p = p33 := by
          have := List.mem_filter.mp hp
          simpa [newPostsOf, get_posts, cl3, submissionsOf] using this.1
        rcases hp' with rfl | rfl | rfl
        · exact ⟨none, rfl⟩
        · exact ⟨none, rfl⟩
        · exact ⟨none, rfl⟩)
    exact ⟨fs', h, rfl⟩
  · refine C3_failure_isolation.2 c3envBad cl3 sSaved none [] [p31] p32 [p33] eBoom
      rfl ?_ (Or.inl rfl)
    intro q hq
    have hq' : q = p31 := by simpa using hq
    subst hq'
    exact ⟨⟨get_post_html p31, rfl⟩, ⟨none, rfl⟩⟩

/-- Claim C3 counterexample: with three fetched posts where the fragment
rendering of the second raises, the archive pass aborts with that error;
no index is produced, so posts 1 and 3 do not appear in any final
index. -/
theorem C3_counterexample :
    archive c3envBad cl3 sSaved none [] = .error eBoom := rfl

/-- Claim C8 (corrected): when the sanitized-name file exists it is left
unchanged and the page goes to the identifier-suffixed name; and as long
as the identifier-suffixed name is still free, no existing standalone
page is overwritten.  The suffixed write itself is unconditional, so a
pass can overwrite an existing file of that suffixed name (see the
counterexample). -/
theorem C8_standalone_pages (fs : FileMap) (p : Post) (page : List Char) :
    (fsLookup fs (sanitize_filename p.subreddit p.title ++ sDotHtml) ≠ none →
      writePostPage fs p page =
        fsWrite fs (sanitize_filename p.subreddit p.title ++ sUnd ++ p.id ++ sDotHtml) page ∧
      fsLookup (writePostPage fs p page)
          (sanitize_filename p.subreddit p.title ++ sDotHtml) =
        fsLookup fs (sanitize_filename p.subreddit p.title ++ sDotHtml)) ∧
    (fsLookup fs (sanitize_filename p.subreddit p.title ++ sUnd ++ p.id ++ sDotHtml) = none →
      ∀ n, fsLookup fs n ≠ none →
        fsLookup (writePostPage fs p page) n = fsLookup fs n) := by
  constructor
  · intro hex
    have heq : writePostPage fs p page =
        fsWrite fs (sanitize_filename p.subreddit p.title ++ sUnd ++ p.id ++ sDotHtml) page := by
      unfold writePostPage
      rw [if_pos hex]
    refine ⟨heq, ?_⟩
    rw [heq]
    exact fsLookup_fsWrite_ne fs _ page _
      (fun hc => suffixed_ne_plain (sanitize_filename p.subreddit p.title) p.id hc.symm)
  · intro hfree n hn
    unfold writePostPage
    by_cases hex : fsLookup fs (sanitize_filename p.subreddit p.title ++ sDotHtml) ≠ none
    · rw [if_pos hex]
      refine fsLookup_fsWrite_ne fs _ page n ?_
      intro hceq
      rw [hceq] at hn
      exact hn hfree
    · rw [if_neg hex]
      refine fsLookup_fsWrite_ne fs _ page n ?_
      intro hceq
      rw [hceq] at hn
      exact hn (by simpa using hex)

theorem C8_standalone_pages_witness :
    writePostPage fs8 p8 sPage8 =
      fsWrite fs8 (sanitize_filename p8.subreddit p8.title ++ sUnd ++ p8.id ++ sDotHtml)
        sPage8 ∧
    fsLookup (writePostPage fs8 p8 sPage8) (sanitize_filename p8.subreddit p8.title ++ sDotHtml) =
      fsLookup fs8 (sanitize_filename p8.subreddit p8.title ++ sDotHtml) :=
  (C8_standalone_pages fs8 p8 sPage8).1 (by decide)

/-- Claim C8 counterexample: with both the sanitized name and the
identifier-suffixed name already present, processing the post overwrites
the existing suffixed file: its content changes from `OLD2` to the newly
created page. -/
theorem C8_counterexample :
    ∃ content fs', archive env8 cl8 sSaved none fs8 = .ok (content, fs') ∧
      fsLookup fs8 sSuf8 = some sOld2 ∧
      fsLookup fs' sSuf8 = some sPage8 ∧
      sOld2 ≠ sPage8 :=
  ⟨c8run.1, c8run.2, by decide, by decide, by decide, by decide⟩

/-- Claim C4 (confirmed): a post whose URL extension is a known image or
video type is routed to the direct-fetch strategy, which accepts the
response only when the declared content type begins with `image` or
`video`; on acceptance it writes exactly the response bytes to
`{slug}_{post_id}.{extension}` and returns that filename, and on
content-type mismatch or transport failure it yields no media without
raising. -/
theorem C4_direct_fetch (env : MediaEnv) (fs : FileMap) (p : Post)
    (extension domain readable_name : List Char)
    (hcl : classifyUrl p.url p.permalink = some (extension, domain, readable_name))
    (hsuf : ¬ p.permalink <:+ p.url)
    (hgal : ¬ (domain = sImgurCom ∧ sGallery <:+: p.url))
    (hext : extension ∈ IMAGE_EXTENSIONS ++ VIDEO_EXTENSIONS) :
    save_media env fs p =
      .ok (download_direct_media env.net fs p.url readable_name p.id extension) ∧
    (env.net p.url = none →
      download_direct_media env.net fs p.url readable_name p.id extension = (none, fs)) ∧
    (∀ r, env.net p.url = some r →
      (sImage <+: r.contentType ∨ sVideo <+: r.contentType) →
      download_direct_media env.net fs p.url readable_name p.id extension =
        (some (readable_name ++ sUnd ++ p.id ++ sDot ++ extension),
         fsWrite fs (readable_name ++ sUnd ++ p.id ++ sDot ++ extension) r.content) ∧
      fsLookup (fsWrite fs (readable_name ++ sUnd ++ p.id ++ sDot ++ extension) r.content)
        (readable_name ++ sUnd ++ p.id ++ sDot ++ extension) = some r.content) ∧
    (∀ r, env.net p.url = some r →
      ¬ (sImage <+: r.contentType ∨ sVideo <+: r.contentType) →
      download_direct_media env.net fs p.url readable_name p.id extension = (none, fs)) := by
  refine ⟨?_, ?_, ?_, ?_⟩
  · unfold save_media
    simp only [hcl]
    rw [if_neg hsuf, if_neg hgal, if_pos hext]
  · intro hnet
    unfold download_direct_media
    rw [hnet]
  · intro r hnet hct
    constructor
    · unfold download_direct_media
      rw [hnet]
      simp only [if_pos hct]
    · exact fsLookup_fsWrite_self fs _ r.content
  · intro r hnet hct
    unfold download_direct_media
    rw [hnet]
    simp only [if_neg hct]

theorem C4_direct_fetch_witness :
    save_media menv4ok [] p4 =
      .ok (download_direct_media menv4ok.net [] p4.url sMypic p4.id sJpg) ∧
    download_direct_media menv4ok.net [] p4.url sMypic p4.id sJpg =
      (some (sMypic ++ sUnd ++ p4.id ++ sDot ++ sJpg),
       fsWrite [] (sMypic ++ sUnd ++ p4.id ++ sDot ++ sJpg) bytes4) ∧
    download_direct_media menv4bad.net [] p4.url sMypic p4.id sJpg = (none, []) := by
  have h1 := C4_direct_fetch menv4ok [] p4 sJpg sExample sMypic (by decide) (by decide)
    (by decide) (by decide)
  have h2 := C4_direct_fetch menv4bad [] p4 sJpg sExample sMypic (by decide) (by decide)
    (by decide) (by decide)
  refine ⟨h1.1, ?_, ?_⟩
  · exact (h1.2.2.1 { contentType := "image/jpeg".data, content := bytes4, status := 200 }
      rfl (by decide)).1
  · exact h2.2.2.2 { contentType := "text/html".data, content := bytes4, status := 200 }
      rfl (by decide)

/-- Claim C6 (confirmed): a URL routed to the gfycat redirect-resolution
strategy substitutes the matched `http...mp4` link as the resolved URL
exactly when the page body is smaller than 50000 bytes and the pattern
matches, and processing then continues at the step-5 image-host check
(`route_from_imgur_check`, which for the unchanged gfycat domain falls
through to the generic extractor); otherwise — body at or above the
ceiling, no match, or transport failure — the result is no media. -/
theorem C6_redirect_resolution (env : MediaEnv) (fs : FileMap) (p : Post)
    (extension readable_name : List Char)
    (hcl : classifyUrl p.url p.permalink = some (extension, sGfycat, readable_name))
    (hsuf : ¬ p.permalink <:+ p.url)
    (hext : extension ∉ IMAGE_EXTENSIONS ++ VIDEO_EXTENSIONS) :
    (∀ r, env.net p.url = some r → r.content.length < 50000 →
      ∀ m, mp4Search r.content = some m →
        save_media env fs p =
          .ok (route_from_imgur_check env fs sGfycat extension m readable_name p.id)) ∧
    (∀ r, env.net p.url = some r → ¬ r.content.length < 50000 →
      save_media env fs p = .ok (none, fs)) ∧
    (∀ r, env.net p.url = some r → mp4Search r.content = none →
      save_media env fs p = .ok (none, fs)) ∧
    (env.net p.url = none → save_media env fs p = .ok (none, fs)) := by
  have hroute : ∀ res, resolve_gfycat_url env.net p.url = res →
      save_media env fs p =
        (match res with
         | none => .ok (none, fs)
         | some url2 =>
           .ok (route_from_imgur_check env fs sGfycat extension url2 readable_name p.id)) := by
    intro res hres
    unfold save_media
    simp only [hcl]
    rw [if_neg hsuf, if_neg (fun hc => absurd hc.1 (by decide : ¬ sGfycat = sImgurCom)),
      if_neg hext, if_neg (by decide : ¬ sGfycat = sReddIt), if_true, hres]
  refine ⟨?_, ?_, ?_, ?_⟩
  · intro r hnet hlen m hm
    refine hroute (some m) ?_
    simp only [resolve_gfycat_url, hnet]
    rw [if_pos hlen, hm]
  · intro r hnet hlen
    refine hroute none ?_
    simp only [resolve_gfycat_url, hnet]
    rw [if_neg hlen]
  · intro r hnet hm
    by_cases hlen : r.content.length < 50000
    · refine hroute none ?_
      simp only [resolve_gfycat_url, hnet]
      rw [if_pos hlen, hm]
    · refine hroute none ?_
      simp only [resolve_gfycat_url, hnet]
      rw [if_neg hlen]
  · intro hnet
    simp only [resolve_gfycat_url] at hroute ⊢
    refine hroute none ?_
    rw [hnet]

theorem C6_redirect_resolution_witness :
    save_media menv6 [] p6 =
      .ok (route_from_imgur_check menv6 [] sGfycat sComFunny m6res sCat p6.id) ∧
    mp4Search body6 = some m6res ∧
    save_media mediaEnvNone [] p6 = .ok (none, []) := by
  have h1 := C6_redirect_resolution menv6 [] p6 sComFunny sCat (by decide) (by decide)
    (by decide)
  have h2 := C6_redirect_resolution mediaEnvNone [] p6 sComFunny sCat (by decide) (by decide)
    (by decide)
  refine ⟨?_, by decide, ?_⟩
  · exact h1.1 { contentType := "text/html".data, content := body6, status := 200 } rfl
      (by decide) m6res (by decide)
  · exact h2.2.2.2 rfl

/-- Claim C9 (corrected): fragments rendered into a written index are
recovered byte-identically and in order by the reconciler's extraction,
for both categories, whenever each fragment is a well-formed block (shape
`opener ++ middle ++ end-marker` with no internal occurrence of its own
end marker, no `\r`/`\x0c` characters, no comments marker, and no opener
of the other category); re-embedding in a subsequent merge then
reproduces the original renderings exactly.  The unrestricted claim is
false: a comment rendered with its replies embeds each reply's own
`<!--commentend--></div>` terminator, the non-greedy extraction truncates
the parent block at the first such terminator, and the round trip fails
(see the counterexample). -/
theorem C9_round_trip (P C : List (List Char))
    (hP : ∀ f ∈ P, postFragOk f) (hC : ∀ f ∈ C, commentFragOk f) :
    (get_existing_items (some (buildFinal P C)) clsPost).2 = P ∧
    (get_existing_items (some (buildFinal P C)) clsComment).2 = C :=
  ⟨extract_posts_of_buildFinal P C hP hC, extract_comments_of_buildFinal P C hP hC⟩

theorem C9_round_trip_witness :
    (get_existing_items
      (some (buildFinal [get_post_html pa] [get_comment_html c10 true none]))
      clsPost).2 = [get_post_html pa] ∧
    (get_existing_items
      (some (buildFinal [get_post_html pa] [get_comment_html c10 true none]))
      clsComment).2 = [get_comment_html c10 true none] :=
  C9_round_trip [get_post_html pa] [get_comment_html c10 true none]
    (by decide) (by decide)

/-- Claim C9 counterexample: the fragment of a saved comment with one
reply is not recovered byte-identically — the extraction truncates it at
the reply's `<!--commentend--></div>` terminator, returning a strict
prefix of the original rendering (which is exactly why such a fragment
falls outside the well-formed class of the amended claim). -/
theorem C9_counterexample :
    (get_existing_items (some (buildFinal [] [get_comment_html cParent true none]))
      clsComment).2 ≠ [get_comment_html cParent true none] ∧
    ((get_existing_items (some (buildFinal [] [get_comment_html cParent true none]))
      clsComment).2.headD []) <+: get_comment_html cParent true none ∧
    ((get_existing_items (some (buildFinal [] [get_comment_html cParent true none]))
      clsComment).2.headD []).length < (get_comment_html cParent true none).length ∧
    ¬ commentFragOk (get_comment_html cParent true none) := by
  refine ⟨by decide, by decide, by decide, by decide⟩

/-- Claim C2 (confirmed): in the regenerated index each category holds
exactly the newly rendered fragments in fetch order followed by the
previously extracted fragments in their original file order, as recovered
by the reconciler's own extraction. -/
theorem C2_merge_order (env : ItemEnv) (cl : Client) (mode : List Char)
    (existing : Option (List Char)) (fs : FileMap) (hs : List (List Char)) (fs' : FileMap)
    (hrun : processPosts env (newPostsOf cl mode existing) fs = .ok (hs, fs'))
    (hP : ∀ f ∈ hs ++ (get_existing_items existing clsPost).2, postFragOk f)
    (hC : ∀ f ∈ commentsHtmlOf cl mode existing, commentFragOk f) :
    ∃ content, archive env cl mode existing fs = .ok (content, fs') ∧
      (get_existing_items (some content) clsPost).2 =
        hs ++ (get_existing_items existing clsPost).2 ∧
      (get_existing_items (some content) clsComment).2 =
        commentsHtmlOf cl mode existing := by
  refine ⟨buildFinal (hs ++ (get_existing_items existing clsPost).2)
    (commentsHtmlOf cl mode existing), ?_, ?_, ?_⟩
  · unfold archive
    rw [hrun]
  · exact extract_posts_of_buildFinal _ _ hP hC
  · exact extract_comments_of_buildFinal _ _ hP hC

theorem C2_merge_order_witness :
    ∃ content, archive env0 cl2 sSaved (some c2base) [] = .ok (content, fsW2) ∧
      (get_existing_items (some content) clsPost).2 =
        [get_post_html pNew] ++ (get_existing_items (some c2base) clsPost).2 ∧
      (get_existing_items (some content) clsComment).2 =
        commentsHtmlOf cl2 sSaved (some c2base) :=
  C2_merge_order env0 cl2 sSaved (some c2base) [] [get_post_html pNew] fsW2
    (by decide) (by decide) (by decide)

/-- Claim C1 (confirmed): an item whose identifier already occurs in an
`id="..."` attribute of the existing index is skipped entirely — the
archive pass never invokes rendering, media fetching or page creation on
it, so its result is unchanged under any modification of the per-item
effects at such posts — and archiving the same two posts twice in a row
produces the same index again, holding exactly one fragment for each of
the two identifiers. -/
theorem C1_incremental_idempotent :
    (∀ (env env' : ItemEnv) (cl : Client) (mode : List Char)
        (existing : Option (List Char)) (fs : FileMap),
      (∀ p : Post, p.id ∉ (get_existing_items existing clsPost).1 →
        env.render p = env'.render p ∧ env.saveMedia p = env'.saveMedia p ∧
        env.createPage p = env'.createPage p) →
      archive env cl mode existing fs = archive env' cl mode existing fs) ∧
    (archive env0 cl1 sSaved none [] = .ok (c1content, c1fs1) ∧
      archive env0 cl1 sSaved (some c1content) c1fs1 = .ok (c1run2.1, c1run2.2) ∧
      c1run2.1 = c1content ∧
      (get_existing_items (some c1run2.1) clsPost).2 =
        [get_post_html pa, get_post_html pb] ∧
      get_post_html pa ≠ get_post_html pb) := by
  constructor
  · intro env env' cl mode existing fs h
    unfold archive
    rw [processPosts_congr env env' (newPostsOf cl mode existing) fs
      (fun p hp => h p (mem_newPostsOf hp))]
  · exact ⟨by decide, by decide, by decide, by decide, by decide⟩

theorem C1_incremental_idempotent_witness :
    archive envW cl1 sSaved (some c1content) [] =
      archive env0 cl1 sSaved (some c1content) [] :=
  C1_incremental_idempotent.1 envW env0 cl1 sSaved (some c1content) []
    (fun p hp => by
      have hne : ¬ p.id = pa.id := fun he => hp (he ▸
        (by decide : pa.id ∈ (get_existing_items (some c1content) clsPost).1))
      refine ⟨?_, rfl, rfl⟩
      show (if p.id = pa.id then Except.error eBoom else Except.ok (get_post_html p)) =
        Except.ok (get_post_html p)
      rw [if_neg hne])
